import Mathlib

/-!
A shallow embedding in Lean 4 of `src/formula.py` (class `Formula`) from the
PyFormula repository, together with proofs checking the repository's
natural-language specification against it.

Modelling conventions:
* Python strings are modelled as `List Char` (terms of a formula are ASCII).
* NumPy float64 arrays are modelled as lists over an abstract scalar type `α`
  (a `Monoid` with `Zero` and a `LinearOrder`); floating-point numbers are
  modelled as exact scalars.  The elementwise transforms (`np.log`, …) and the
  real-exponent power `x ** float(q)` are kept abstract in a `ScalarOps α`
  record, instantiated at `ℝ` (with the genuine real functions) and at `ℚ`
  (for executable witnesses).  Python `float(...)` conversions of parsed
  literals are modelled as exact rationals.
* A pandas `DataFrame` is a list of named columns of a common length with
  distinct names.
* Python exceptions are modelled by the error taxonomy of the spec
  (`FmlError`); each raise site is annotated with the Python exception it
  models.  `pd.get_dummies` one-hot encodes a column, with the distinct
  values in sorted order (pandas sorts the categories).
-/

/-- ASCII model of Python's regex `\w` (`[\w\d]` in the source patterns):
letters, digits and underscore. -/
def isWordChar (c : Char) : Bool := c.isAlphanum || c == '_'

/-- The whitespace characters removed by Python's `str.strip()` and used by
`str.split()` (ASCII subset). -/
def isWS (c : Char) : Bool :=
  c == ' ' || c == '\t' || c == '\n' || c == '\r' || c == '\x0b' || c == '\x0c'

/-- Python `str.strip()`. -/
def strip (l : List Char) : List Char :=
  ((l.dropWhile isWS).reverse.dropWhile isWS).reverse

/-- Splitting on a character predicate, keeping empty pieces: the semantics of
Python's `str.split(sep)` for a one-character separator when the predicate is
equality with that character. -/
def splitOnP (p : Char → Bool) : List Char → List (List Char)
  | [] => [[]]
  | x :: xs =>
    let r := splitOnP p xs
    if p x then [] :: r
    else
      match r with
      | h :: t => (x :: h) :: t
      | [] => [[x]]

/-- Python `s.split(c)` for a single-character separator `c`. -/
def splitOnChar (c : Char) (l : List Char) : List (List Char) :=
  splitOnP (fun x => x == c) l

/-- Python `s.split()` (no argument): split on whitespace runs, dropping empty
pieces. -/
def wsSplit (l : List Char) : List (List Char) :=
  (splitOnP isWS l).filter (fun x => !x.isEmpty)

/-- Python `s.find(c)` for a character known to occur in `s` (the source only
slices with `find` after a successful pattern match, so the not-found value -1
never flows into a slice in the modelled paths). -/
def pyFind (c : Char) (l : List Char) : Nat := l.findIdx (fun x => x == c)

/-- Python `s.rfind(c)`: index of the last occurrence. -/
def pyRFind (c : Char) (l : List Char) : Nat :=
  l.length - 1 - pyFind c l.reverse

/-- Python slice `l[a:b]` (for `a b : Nat`). -/
def pySlice (l : List Char) (a b : Nat) : List Char := (l.take b).drop a

/-- The slice `feature[feature.find("(")+1:feature.find(")")]` used by the
dummy, transform and polynomial branches of `parse_op_`. -/
def innerParen (l : List Char) : List Char :=
  pySlice l (pyFind '(' l + 1) (pyFind ')' l)

/-- The slice `feature[feature.find("(")+1:feature.rfind(")")]` used by the
power branch of `parse_op_`. -/
def powerInner (l : List Char) : List Char :=
  pySlice l (pyFind '(' l + 1) (pyRFind ')' l)

/-- Digit-string value: `foldl`-accumulation of decimal digits. -/
def digitsVal (l : List Char) : Nat :=
  l.foldl (fun n c => 10 * n + (c.toNat - 48)) 0

/-- Parse a nonempty all-digit string as a natural number (helper for the
models of Python's `int()`, `float()` and `Fraction()`). -/
def parseNatDigits (l : List Char) : Option Nat :=
  if l.isEmpty then none
  else if l.all Char.isDigit then some (digitsVal l) else none

/-- Python `int(s)` on a stripped string: optional sign followed by digits
(numeric underscores are not modelled). -/
def parseInt : List Char → Option Int
  | '-' :: r => (parseNatDigits r).map (fun n => -(n : Int))
  | '+' :: r => (parseNatDigits r).map (fun n => (n : Int))
  | r => (parseNatDigits r).map (fun n => (n : Int))

/-- Lowercase `E` so that `float()` exponents can be split uniformly. -/
def normE (l : List Char) : List Char :=
  l.map (fun c => if c == 'E' then 'e' else c)

/-- Unsigned decimal literal `digits[.digits]`, as an exact rational. -/
def parseUDecimal (l : List Char) : Option ℚ :=
  match splitOnChar '.' l with
  | [a] => (parseNatDigits a).map (fun n => (n : ℚ))
  | [a, b] =>
    if a.isEmpty && b.isEmpty then none
    else if a.all Char.isDigit && b.all Char.isDigit then
      some ((digitsVal (a ++ b) : ℚ) / (10 ^ b.length))
    else none
  | _ => none

/-- Unsigned float literal with optional scientific exponent. -/
def parseUFloatCore (l : List Char) : Option ℚ :=
  match splitOnChar 'e' (normE l) with
  | [m] => parseUDecimal m
  | [m, e] =>
    match parseUDecimal m, parseInt e with
    | some mv, some ev => some (mv * (10 : ℚ) ^ ev)
    | _, _ => none
  | _ => none

/-- Python `float(s)` on a stripped string, as an exact rational (`inf`/`nan`
and numeric underscores are not modelled; the claims never reach them). -/
def parseFloat : List Char → Option ℚ
  | '-' :: r => (parseUFloatCore r).map (fun q => -q)
  | '+' :: r => parseUFloatCore r
  | r => parseUFloatCore r

/-- Unsigned body of Python `Fraction(s)`: either `digits/digits` or a decimal
literal (with optional exponent).  A zero denominator is modelled as a parse
failure (Python raises `ZeroDivisionError` there). -/
def parseUFrac (l : List Char) : Option ℚ :=
  match splitOnChar '/' l with
  | [a] => parseUFloatCore a
  | [a, b] =>
    match parseNatDigits a, parseNatDigits b with
    | some n, some d => if d = 0 then none else some ((n : ℚ) / (d : ℚ))
    | _, _ => none
  | _ => none

/-- Python `Fraction(s)` for a whitespace-free token. -/
def parseFraction : List Char → Option ℚ
  | '-' :: r => (parseUFrac r).map (fun q => -q)
  | '+' :: r => parseUFrac r
  | r => parseUFrac r

/-- Sequence a list of options: `some` of the list of values iff all entries
are `some` (used to model Python's `sum(Fraction(s) for s in ...)`, which
aborts on the first conversion error). -/
def seqO {β : Type} : List (Option β) → Option (List β)
  | [] => some []
  | none :: _ => none
  | some b :: rest => (seqO rest).map (fun l => b :: l)

/-- The error taxonomy of the specification (§7).  Each constructor is the
spec-level classification of a concrete Python raise site; comments at the
use sites name the underlying Python exception. -/
inductive FmlError where
  /-- `ValueError` for malformed formula structure: more than one `~`
  separator, the unpacking failure when the formula has no separator,
  duplicate feature terms, `:`/`*` with arity ≠ 2. -/
  | formulaSyntax : FmlError
  /-- A referenced column absent from the dataset: pandas `KeyError` from
  `self.data[feature]`, and the explicit `ValueError` for a missing response
  column. -/
  | unknownColumn : List Char → FmlError
  /-- `ValueError("The current operation is not supported")`. -/
  | unsupportedOperation : FmlError
  /-- `ValueError("Power should be no small than 1 in the poly")`. -/
  | invalidParameter : FmlError
  /-- Unvalidated numeric failures: `int()`/`float()`/`Fraction()` conversion
  errors, arity failures when unpacking `^`/`,` splits, and NumPy
  broadcast/stack shape errors. -/
  | numericEvaluation : FmlError
deriving DecidableEq

deriving instance DecidableEq for Except

/-- A NumPy array as produced by `parse_op_`: 1-D (one column vector) or 2-D
(a stack of row vectors, as returned by dummy and polynomial expansion). -/
inductive NpArr (α : Type) where
  | vec : List α → NpArr α
  | mat : List (List α) → NpArr α
deriving DecidableEq

/-- The row vectors an array contributes to `np.vstack`. -/
def rowsOf {α : Type} : NpArr α → List (List α)
  | .vec v => [v]
  | .mat m => m

/-- The external scalar collaborators: the elementwise transforms of
`Formula.transform_ops` and the real-exponent power `x ** float(q)` (the
rational `q` models the parsed exponent exactly). -/
structure ScalarOps (α : Type) where
  log : α → α
  exp : α → α
  sin : α → α
  cos : α → α
  tan : α → α
  tanh : α → α
  sqrt : α → α
  pow : α → ℚ → α

/-- A pandas DataFrame: named columns over a fixed row count.  Distinct
column names are assumed (with duplicate names pandas indexing returns a
2-D object and the source behaves differently; out of scope). -/
structure DataFrame (α : Type) where
  nrows : Nat
  cols : List (List Char × List α)
  colsNodup : (cols.map Prod.fst).Nodup
  colsLen : ∀ c ∈ cols, c.2.length = nrows

/-- `name in self.data.columns` / `self.data[name].values`. -/
def lookupCol {α : Type} (d : DataFrame α) (nm : List Char) : Option (List α) :=
  (d.cols.find? (fun c => c.1 == nm)).map (fun c => c.2)

/-- Insertion into a `≤`-sorted list (helper for the category order of
`pd.get_dummies`, which sorts the distinct values). -/
def insertLE {α : Type} [LinearOrder α] (x : α) : List α → List α
  | [] => [x]
  | y :: ys => if x ≤ y then x :: y :: ys else y :: insertLE x ys

/-- Insertion sort (ascending). -/
def sortLE {α : Type} [LinearOrder α] : List α → List α
  | [] => []
  | x :: xs => insertLE x (sortLE xs)

/-- `pd.get_dummies(self.data[name]).values.T`: one indicator row vector per
distinct value of the column, categories in pandas' sorted order. -/
def getDummies {α : Type} [LinearOrder α] [Zero α] [One α] (v : List α) :
    List (List α) :=
  (sortLE v.dedup).map (fun dv => v.map (fun x => if x = dv then 1 else 0))

/-- Helper for the anchored regex patterns `^<pre>...\)$`: returns the text
between the fixed prefix `pre` and a final `)`, when the string has that
shape. -/
def wrapped (pre l : List Char) : Option (List Char) :=
  if pre.isPrefixOf l then
    let rest := l.drop pre.length
    match rest.getLast? with
    | some c => if c = ')' then some rest.dropLast else none
    | none => none
  else none

/-- Full-string shape `pre ++ inner ++ ")"` with `inner` a nonempty word
(the common body of `dummy_pattern` and `transform_pattern`). -/
def matchWrapWord (pre l : List Char) : Bool :=
  match wrapped pre l with
  | some inner => !inner.isEmpty && inner.all isWordChar
  | none => false

/-- `dummy_pattern = r"^c\([\w\d]+\)$"`. -/
def matchDummy (l : List Char) : Bool := matchWrapWord ['c', '('] l

/-- The keys of `Formula.transform_ops`, in their (insertion) order. -/
def opNames : List (List Char) :=
  [['l', 'o', 'g'], ['e', 'x', 'p'], ['s', 'i', 'n'], ['c', 'o', 's'],
   ['t', 'a', 'n'], ['t', 'a', 'n', 'h'], ['s', 'q', 'r', 't']]

/-- `transform_pattern = r"^(log|exp|sin|cos|tan|tanh|sqrt)\([\w\d]+\)$"`:
the matching operation name, if any.  (At most one alternative can match a
given string, so regex alternation order is immaterial; the source extracts
the operation as `feature[:feature.find("(")]`, which equals this name.) -/
def transformOpOf (l : List Char) : Option (List Char) :=
  opNames.find? (fun op => matchWrapWord (op ++ ['(']) l)

/-- `power_pattern = r"^I\(.*\)$"`. -/
def matchPower (l : List Char) : Bool := (wrapped ['I', '('] l).isSome

/-- `polynomial_pattern = r"^poly\(.*\)$"`. -/
def matchPoly (l : List Char) : Bool :=
  (wrapped ['p', 'o', 'l', 'y', '('] l).isSome

/-- The named transform as a scalar function (`pandas.Series.transform(op)`
resolves the name `op` to the NumPy ufunc of the same name, i.e. exactly the
entry of `Formula.transform_ops`). -/
def opFun {α : Type} (O : ScalarOps α) (op : List Char) : Option (α → α) :=
  if op = ['l', 'o', 'g'] then some O.log
  else if op = ['e', 'x', 'p'] then some O.exp
  else if op = ['s', 'i', 'n'] then some O.sin
  else if op = ['c', 'o', 's'] then some O.cos
  else if op = ['t', 'a', 'n'] then some O.tan
  else if op = ['t', 'a', 'n', 'h'] then some O.tanh
  else if op = ['s', 'q', 'r', 't'] then some O.sqrt
  else none

/-- One-dimensional NumPy multiply with broadcasting: elementwise for equal
lengths, scalar extension for a length-1 operand, shape error otherwise. -/
def mulBC {α : Type} [Mul α] (a b : List α) : Option (List α) :=
  if a.length = b.length then some (List.zipWith (fun x y => x * y) a b)
  else
    match a, b with
    | [x], _ => some (b.map (fun y => x * y))
    | _, [y] => some (a.map (fun x => x * y))
    | _, _ => none

/-- Row-broadcasting of two 2-D operands with distinct row counts: a
single-row operand broadcasts against the other (NumPy's length-1 leading
dimension rule); anything else is a shape error. -/
def bcRows {α : Type} [Mul α] : List (List α) → List (List α) →
    Option (List (List α))
  | [x], m' => seqO (m'.map (fun r => mulBC x r))
  | m, [y] => seqO (m.map (fun r => mulBC r y))
  | _, _ => none

/-- NumPy `X1 * X2` on the 1-D/2-D arrays produced by `parse_op_`, with
NumPy's broadcasting rules (a 1-D array broadcasts as a single row; a
length-1 leading dimension broadcasts).  A shape mismatch is NumPy's
`ValueError: operands could not be broadcast together`. -/
def npMul {α : Type} [Mul α] : NpArr α → NpArr α → Except FmlError (NpArr α)
  | .vec a, .vec b =>
    match mulBC a b with
    | some c => .ok (.vec c)
    | none => .error .numericEvaluation
  | .mat m, .vec b =>
    match seqO (m.map (fun r => mulBC r b)) with
    | some rows => .ok (.mat rows)
    | none => .error .numericEvaluation
  | .vec a, .mat m =>
    match seqO (m.map (fun r => mulBC a r)) with
    | some rows => .ok (.mat rows)
    | none => .error .numericEvaluation
  | .mat m, .mat m' =>
    match (if m.length = m'.length then seqO (List.zipWith mulBC m m')
           else bcRows m m') with
    | some rows => .ok (.mat rows)
    | none => .error .numericEvaluation

/-- The resolution of the exponent spec inside `I(base^power)`, up to (but
not including) the deferred `float()` call.  In the source, when the spec is
parenthesised and its inner text contains `/`, the `Fraction` conversions run
*before* the column access (`sum(Fraction(s) for s in power.split())`);
otherwise `float(power)` only runs inside the `transform` lambda, i.e. after
the column access.  `.ok (.inl q)` is an eagerly summed exact rational;
`.ok (.inr s)` is the string left for the deferred `float()`. -/
def expSpecResolve (pow0 : List Char) : Except FmlError (ℚ ⊕ List Char) :=
  if ('(' ∈ pow0) ∧ (')' ∈ pow0) then
    if '/' ∈ strip (innerParen pow0) then
      match seqO ((wsSplit (strip (innerParen pow0))).map parseFraction) with
      | some qs => .ok (.inl qs.sum)
      | none => .error .numericEvaluation
    else .ok (.inr (strip (innerParen pow0)))
  else .ok (.inr pow0)

/-- `Formula.parse_op_(feature)` with `self.data = d`: precedence-ordered
term resolution.  The first check is raw-column membership; then the four
regex patterns in source order; otherwise
`ValueError("The current operation is not supported")`. -/
def parse_op {α : Type} [Monoid α] [Zero α] [LinearOrder α]
    (O : ScalarOps α) (d : DataFrame α) (f : List Char) :
    Except FmlError (NpArr α) :=
  match lookupCol d f with
  | some v => .ok (.vec v)
  | none =>
    if matchDummy f then
      -- `pd.get_dummies(self.data[name]).values.T`; a missing column is a
      -- pandas `KeyError`.
      match lookupCol d (innerParen f) with
      | some v => .ok (.mat (getDummies v))
      | none => .error (.unknownColumn (innerParen f))
    else
      match transformOpOf f with
      | some op =>
        -- `self.data[name].transform(op).values`
        match lookupCol d (innerParen f) with
        | none => .error (.unknownColumn (innerParen f))
        | some v =>
          match opFun O op with
          | some g => .ok (.vec (v.map g))
          | none => .error .numericEvaluation
      | none =>
        if matchPower f then
          match (splitOnChar '^' (powerInner f)).map strip with
          | [base, pow0] =>
            match expSpecResolve pow0 with
            | .error e => .error e
            | .ok espec =>
              -- `self.data[base].transform(lambda x: x**(float(power)))`
              match lookupCol d base with
              | none => .error (.unknownColumn base)
              | some v =>
                match (match espec with
                       | .inl q => some q
                       | .inr s0 => parseFloat s0) with
                | some q => .ok (.vec (v.map (fun x => O.pow x q)))
                | none => .error .numericEvaluation
          | _ =>
            -- `ValueError` unpacking `feature.split("^")` into two names.
            .error .numericEvaluation
        else if matchPoly f then
          match (splitOnChar ',' (innerParen f)).map strip with
          | [nm, ks] =>
            match parseInt ks with
            | none => .error .numericEvaluation  -- `int()` conversion error
            | some k =>
              if k < 1 then .error .invalidParameter
              else
                match lookupCol d nm with
                | none => .error (.unknownColumn nm)
                | some v =>
                  -- `np.array([... x**p ... for p in range(1, power+1)])`
                  .ok (.mat ((List.range k.toNat).map
                        (fun i => v.map (fun x => x ^ (i + 1)))))
          | _ =>
            -- `ValueError` unpacking `feature.split(",")` into two pieces.
            .error .numericEvaluation
        else .error .unsupportedOperation

/-- One iteration of the feature loop in `parse_features_`: the arrays the
(stripped) term `f` appends to the list `X`. -/
def parse_feature_term {α : Type} [Monoid α] [Zero α] [LinearOrder α]
    (O : ScalarOps α) (d : DataFrame α) (f : List Char) :
    Except FmlError (List (NpArr α)) :=
  if f = ['1'] then .ok [.vec (List.replicate d.nrows 1)]
  else if ':' ∈ f then
    match (splitOnChar ':' f).map strip with
    | [a, b] =>
      match parse_op O d a with
      | .error e => .error e
      | .ok x1 =>
        match parse_op O d b with
        | .error e => .error e
        | .ok x2 =>
          match npMul x1 x2 with
          | .error e => .error e
          | .ok p => .ok [p]
    | _ => .error .formulaSyntax  -- `ValueError("The operator : should be binary")`
  else if '*' ∈ f then
    match (splitOnChar '*' f).map strip with
    | [a, b] =>
      match parse_op O d a with
      | .error e => .error e
      | .ok x1 =>
        match parse_op O d b with
        | .error e => .error e
        | .ok x2 =>
          match npMul x1 x2 with
          | .error e => .error e
          | .ok p => .ok [x1, x2, p]
    | _ => .error .formulaSyntax  -- `ValueError("The operator * should be binary")`
  else
    match parse_op O d f with
    | .error e => .error e
    | .ok x => .ok [x]

/-- The feature loop of `parse_features_`: the ordered list `X` of arrays
before `np.vstack`. -/
def buildArrs {α : Type} [Monoid α] [Zero α] [LinearOrder α]
    (O : ScalarOps α) (d : DataFrame α) :
    List (List Char) → Except FmlError (List (NpArr α))
  | [] => .ok []
  | f :: rest =>
    match parse_feature_term O d f with
    | .error e => .error e
    | .ok xs =>
      match buildArrs O d rest with
      | .error e => .error e
      | .ok ys => .ok (xs ++ ys)

/-- Term splitting and duplicate check of `parse_features_`, producing the
pre-stack list of arrays.  `ValueError("The features should be different")`
when two (stripped) terms coincide. -/
def buildX {α : Type} [Monoid α] [Zero α] [LinearOrder α]
    (O : ScalarOps α) (d : DataFrame α) (indep : List Char) :
    Except FmlError (List (NpArr α)) :=
  let features := (splitOnChar '+' indep).map strip
  if features.Nodup then buildArrs O d features
  else .error .formulaSyntax

/-- Transpose of a rectangular row list of width `w` (NumPy `.T`). -/
def transposeRect {α : Type} (rows : List (List α)) (w : Nat) :
    List (List α) :=
  (List.range w).map (fun i => rows.filterMap (fun r => r[i]?))

/-- `np.vstack(X).T`: flatten the arrays into row vectors, require a common
row length (otherwise NumPy raises a shape `ValueError`), and transpose to
samples-as-rows. -/
def vstackT {α : Type} (arrs : List (NpArr α)) :
    Except FmlError (List (List α)) :=
  let rows := (arrs.map rowsOf).flatten
  match rows with
  | [] => .ok []
  | r :: _ =>
    if rows.all (fun x => x.length == r.length) then
      .ok (transposeRect rows r.length)
    else .error .numericEvaluation

/-- `Formula.parse_features_(indep)` with `self.data = d`: the assembled
design matrix (rows = samples). -/
def parse_features {α : Type} [Monoid α] [Zero α] [LinearOrder α]
    (O : ScalarOps α) (d : DataFrame α) (indep : List Char) :
    Except FmlError (List (List α)) :=
  match buildX O d indep with
  | .error e => .error e
  | .ok arrs => vstackT arrs

/-- The mutable state of a `Formula` instance: the inert `chunksize` set in
`__init__`, and the `data` attribute that `__call__` assigns (absent until
the first call reaches the assignment).  The four pattern attributes are
constants and are embedded in the matcher functions. -/
structure FormulaInst (α : Type) where
  chunksize : Option Nat
  data : Option (DataFrame α)

/-- `Formula.__call__(string, data)`: returns the result together with the
instance state after the call (the source mutates `self.data`).  Raise
sites, in source order: more than one `~` (`ValueError`), the 2-tuple
unpacking of `string.split("~")` (`ValueError` when there is no separator),
the response-column check (`ValueError`), then feature parsing. -/
def call {α : Type} [Monoid α] [Zero α] [LinearOrder α]
    (O : ScalarOps α) (self : FormulaInst α) (s : List Char)
    (d : DataFrame α) :
    Except FmlError (List (List α) × List α) × FormulaInst α :=
  if 1 < s.count '~' then (.error .formulaSyntax, self)
  else
    match (splitOnChar '~' s).map strip with
    | [dep, indep] =>
      let self2 : FormulaInst α := { self with data := some d }
      match lookupCol d dep with
      | none => (.error (.unknownColumn dep), self2)
      | some y =>
        match parse_features O d indep with
        | .error e => (.error e, self2)
        | .ok X => (.ok (X, y), self2)
    | _ => (.error .formulaSyntax, self)

/-- The scalar collaborators over `ℝ`: the genuine NumPy semantics on the
real-number model of float64 (`x ** float(q)` is real-exponent power; for
`x < 0` and fractional `q` NumPy produces NaN, which the real model does not
represent — the claims only evaluate powers on non-negative bases). -/
noncomputable def realOps : ScalarOps ℝ where
  log := Real.log
  exp := Real.exp
  sin := Real.sin
  cos := Real.cos
  tan := Real.tan
  tanh := Real.tanh
  sqrt := Real.sqrt
  pow := fun x q => x ^ (q : ℝ)

/-- An executable scalar instantiation over `ℤ`, used only to evaluate
witnesses of theorems that hold for every `ScalarOps`.  (Transforms and
fractional powers have no exact integer counterpart; the witnesses never
depend on their values.) -/
def intOps : ScalarOps ℤ where
  log := fun _ => 0
  exp := fun _ => 0
  sin := fun _ => 0
  cos := fun _ => 0
  tan := fun _ => 0
  tanh := fun _ => 0
  sqrt := fun _ => 0
  pow := fun x q => if q.den = 1 ∧ 0 ≤ q.num then x ^ q.num.toNat else 0

/-! ### Lemmas about the string helpers -/

theorem splitOnP_ne_nil (p : Char → Bool) (l : List Char) :
    splitOnP p l ≠ [] := by
  induction l with
  | nil => simp [splitOnP]
  | cons x xs ih =>
    simp only [splitOnP]
    split
    · simp
    · cases h : splitOnP p xs with
      | nil => simp
      | cons a t => simp

theorem length_splitOnP (p : Char → Bool) (l : List Char) :
    (splitOnP p l).length = l.countP p + 1 := by
  induction l with
  | nil => simp [splitOnP]
  | cons x xs ih =>
    by_cases h : p x = true
    · simp [splitOnP, h, ih, List.countP_cons]
    · cases hs : splitOnP p xs with
      | nil => exact absurd hs (splitOnP_ne_nil p xs)
      | cons a t =>
        rw [hs] at ih
        simp [splitOnP, h, hs, List.countP_cons] at ih ⊢
        omega

theorem splitOnP_all_neg (p : Char → Bool) (l : List Char)
    (h : ∀ c ∈ l, p c = false) : splitOnP p l = [l] := by
  induction l with
  | nil => rfl
  | cons x xs ih =>
    have hx : p x = false := h x (by simp)
    have hxs := ih (fun c hc => h c (by simp [hc]))
    simp [splitOnP, hx, hxs]

theorem splitOnP_append_cons (p : Char → Bool) (a b : List Char) (c : Char)
    (hpc : p c = true) (ha : ∀ x ∈ a, p x = false) :
    splitOnP p (a ++ c :: b) = a :: splitOnP p b := by
  induction a with
  | nil => simp [splitOnP, hpc]
  | cons x xs ih =>
    have hx : p x = false := ha x (by simp)
    have ihx := ih (fun y hy => ha y (by simp [hy]))
    simp [splitOnP, hx, ihx]

theorem splitOnChar_not_mem (c : Char) (l : List Char) (h : c ∉ l) :
    splitOnChar c l = [l] :=
  splitOnP_all_neg _ _ (fun x hx => by
    rw [beq_eq_false_iff_ne]
    rintro rfl
    exact h hx)

theorem splitOnChar_sandwich (c : Char) (a b : List Char) (ha : c ∉ a) :
    splitOnChar c (a ++ c :: b) = a :: splitOnChar c b :=
  splitOnP_append_cons _ _ _ _ (by simp) (fun x hx => by
    rw [beq_eq_false_iff_ne]
    rintro rfl
    exact ha hx)

theorem length_splitOnChar (c : Char) (l : List Char) :
    (splitOnChar c l).length = l.count c + 1 := by
  rw [splitOnChar, length_splitOnP, List.count]

theorem dropWhile_all_neg (p : Char → Bool) (l : List Char)
    (h : ∀ c ∈ l, p c = false) : l.dropWhile p = l := by
  cases l with
  | nil => rfl
  | cons x xs => simp [List.dropWhile_cons, h x (by simp)]

theorem strip_all_neg (l : List Char) (h : ∀ c ∈ l, isWS c = false) :
    strip l = l := by
  unfold strip
  rw [dropWhile_all_neg _ _ h, dropWhile_all_neg, List.reverse_reverse]
  intro c hc
  exact h c (by simpa using hc)

theorem wordChar_ne (c d : Char) (h : isWordChar c = true)
    (hd : isWordChar d = false) : c ≠ d := by
  rintro rfl
  rw [h] at hd
  cases hd

theorem wordChars_not_mem {l : List Char} (h : ∀ c ∈ l, isWordChar c = true)
    {d : Char} (hd : isWordChar d = false) : d ∉ l := by
  intro hm
  rw [h d hm] at hd
  cases hd

theorem wordChar_not_ws (c : Char) (h : isWordChar c = true) :
    isWS c = false := by
  cases hw : isWS c with
  | false => rfl
  | true =>
    exfalso
    simp only [isWS, Bool.or_eq_true, beq_iff_eq] at hw
    rcases hw with ((((rfl | rfl) | rfl) | rfl) | rfl) | rfl <;>
      exact absurd h (by decide)

theorem strip_wordChars {l : List Char} (h : ∀ c ∈ l, isWordChar c = true) :
    strip l = l :=
  strip_all_neg l (fun c hc => wordChar_not_ws c (h c hc))

theorem seqO_map {β γ : Type} (g : β → Option γ) (l : List β)
    (h : ∀ x ∈ l, (g x).isSome) :
    ∃ ys, seqO (l.map g) = some ys ∧ ys.length = l.length ∧
      ∀ y ∈ ys, ∃ x ∈ l, g x = some y := by
  induction l with
  | nil => exact ⟨[], rfl, rfl, by simp⟩
  | cons x xs ih =>
    obtain ⟨ys, h1, h2, h3⟩ := ih (fun a ha => h a (by simp [ha]))
    obtain ⟨y, hy⟩ := Option.isSome_iff_exists.mp (h x (by simp))
    refine ⟨y :: ys, ?_, by simp [h2], ?_⟩
    · rw [List.map_cons, hy]
      simp [seqO, h1]
    · intro z hz
      rcases List.mem_cons.mp hz with rfl | hz2
      · exact ⟨x, by simp, hy⟩
      · obtain ⟨w, hw, hgw⟩ := h3 z hz2
        exact ⟨w, by simp [hw], hgw⟩

theorem seqO_zipWith {β γ : Type} (g : β → β → Option γ) (P : γ → Prop) :
    ∀ (m m' : List β), m.length = m'.length →
      (∀ x ∈ m, ∀ y ∈ m', ∃ z, g x y = some z ∧ P z) →
      ∃ ys, seqO (List.zipWith g m m') = some ys ∧ ys.length = m.length ∧
        ∀ z ∈ ys, P z := by
  intro m
  induction m with
  | nil =>
    intro m' hlen _
    exact ⟨[], by simp [seqO], by simp, by simp⟩
  | cons x xs ih =>
    intro m' hlen hall
    cases m' with
    | nil => simp at hlen
    | cons y ys =>
      obtain ⟨zs, h1, h2, h3⟩ := ih ys (by simpa using hlen)
        (fun a ha b hb => hall a (by simp [ha]) b (by simp [hb]))
      obtain ⟨z, hz, hPz⟩ := hall x (by simp) y (by simp)
      refine ⟨z :: zs, ?_, by simp [h2], ?_⟩
      · rw [List.zipWith_cons_cons, hz]
        simp [seqO, h1]
      · intro w hw
        rcases List.mem_cons.mp hw with rfl | hw2
        · exact hPz
        · exact h3 w hw2

/-! ### Lemmas about the pattern matchers and slices -/

theorem isPrefixOf_self_append (p r : List Char) :
    p.isPrefixOf (p ++ r) = true := by
  rw [List.isPrefixOf_iff_prefix]
  exact List.prefix_append p r

theorem wrapped_sandwich (pre inner : List Char) :
    wrapped pre (pre ++ (inner ++ [')'])) = some inner := by
  unfold wrapped
  rw [isPrefixOf_self_append]
  simp [List.drop_left, List.getLast?_concat]

theorem exists_append_of_wrapped_isSome (pre l : List Char)
    (h : (wrapped pre l).isSome = true) : ∃ r, l = pre ++ r := by
  unfold wrapped at h
  by_cases hp : pre.isPrefixOf l
  · obtain ⟨t, ht⟩ := List.isPrefixOf_iff_prefix.mp hp
    exact ⟨t, ht.symm⟩
  · simp [hp] at h

theorem wrapped_not_prefixOf (pre l : List Char)
    (h : pre.isPrefixOf l = false) : wrapped pre l = none := by
  unfold wrapped
  simp [h]

theorem findIdx_append_all_neg (p : Char → Bool) (a b : List Char)
    (ha : ∀ x ∈ a, p x = false) :
    (a ++ b).findIdx p = a.length + b.findIdx p := by
  induction a with
  | nil => simp
  | cons x xs ih =>
    have hx : p x = false := ha x (by simp)
    have ihx := ih (fun y hy => ha y (by simp [hy]))
    simp only [List.cons_append, List.findIdx_cons, hx, cond_false, ihx,
      List.length_cons]
    omega

theorem innerParen_sandwich (a m b : List Char)
    (ha1 : '(' ∉ a) (ha2 : ')' ∉ a) (hm : ')' ∉ m) :
    innerParen (a ++ '(' :: (m ++ ')' :: b)) = m := by
  have hfo : pyFind '(' (a ++ '(' :: (m ++ ')' :: b)) = a.length := by
    unfold pyFind
    rw [findIdx_append_all_neg _ a _ (fun x hx => by
      rw [beq_eq_false_iff_ne]; rintro rfl; exact ha1 hx)]
    simp [List.findIdx_cons]
  have hfc : pyFind ')' (a ++ '(' :: (m ++ ')' :: b)) =
      a.length + 1 + m.length := by
    unfold pyFind
    have hshape : a ++ '(' :: (m ++ ')' :: b) = (a ++ '(' :: m) ++ ')' :: b := by
      simp
    rw [hshape, findIdx_append_all_neg _ (a ++ '(' :: m) _ ?_]
    · simp [List.findIdx_cons]
      omega
    · intro x hx
      rw [beq_eq_false_iff_ne]
      rcases List.mem_append.mp hx with hxa | hxm
      · rintro rfl; exact ha2 hxa
      · rcases List.mem_cons.mp hxm with rfl | hxm2
        · decide
        · rintro rfl; exact hm hxm2
  unfold innerParen pySlice
  rw [hfo, hfc]
  have hshape : a ++ '(' :: (m ++ ')' :: b) = (a ++ '(' :: m) ++ ')' :: b := by
    simp
  rw [hshape, List.take_left' (by simp; omega)]
  have hshape2 : a ++ '(' :: m = (a ++ ['(']) ++ m := by simp
  rw [hshape2, List.drop_left' (by simp)]

theorem powerInner_sandwich (inner : List Char) :
    powerInner (['I', '('] ++ (inner ++ [')'])) = inner := by
  have hfo : pyFind '(' (['I', '('] ++ (inner ++ [')'])) = 1 := by
    unfold pyFind
    simp [List.findIdx_cons]
  have hfr : pyRFind ')' (['I', '('] ++ (inner ++ [')'])) =
      inner.length + 2 := by
    unfold pyRFind pyFind
    have hrev : (['I', '('] ++ (inner ++ [')'])).reverse =
        ')' :: (inner.reverse ++ ['(', 'I']) := by
      simp
    rw [hrev]
    simp [List.findIdx_cons]
  unfold powerInner pySlice
  rw [hfo, hfr]
  have hshape : ['I', '('] ++ (inner ++ [')']) =
      (['I', '('] ++ inner) ++ [')'] := by simp
  rw [hshape, List.take_left' (by simp), List.drop_left' (by simp)]

theorem matchWrapWord_eq_false_of_not_prefixOf (pre l : List Char)
    (h : pre.isPrefixOf l = false) : matchWrapWord pre l = false := by
  unfold matchWrapWord
  rw [wrapped_not_prefixOf pre l h]

theorem matchDummy_head (c : Char) (l : List Char) (hc : c ≠ 'c') :
    matchDummy (c :: l) = false := by
  unfold matchDummy
  apply matchWrapWord_eq_false_of_not_prefixOf
  simp [List.isPrefixOf]
  intro h
  exact absurd h.symm hc

theorem transformOpOf_head (c : Char) (l : List Char)
    (h1 : c ≠ 'l') (h2 : c ≠ 'e') (h3 : c ≠ 's') (h4 : c ≠ 'c')
    (h5 : c ≠ 't') : transformOpOf (c :: l) = none := by
  unfold transformOpOf opNames
  have k : ∀ (d : Char) (p : List Char), d ≠ c →
      matchWrapWord (d :: p) (c :: l) = false := by
    intro d p hd
    apply matchWrapWord_eq_false_of_not_prefixOf
    simp [List.isPrefixOf]
    intro h
    exact absurd h hd
  rw [List.find?_cons_of_neg _ (by simp [k 'l' _ (Ne.symm h1)]),
    List.find?_cons_of_neg _ (by simp [k 'e' _ (Ne.symm h2)]),
    List.find?_cons_of_neg _ (by simp [k 's' _ (Ne.symm h3)]),
    List.find?_cons_of_neg _ (by simp [k 'c' _ (Ne.symm h4)]),
    List.find?_cons_of_neg _ (by simp [k 't' _ (Ne.symm h5)]),
    List.find?_cons_of_neg _ (by simp [k 't' _ (Ne.symm h5)]),
    List.find?_cons_of_neg _ (by simp [k 's' _ (Ne.symm h3)]),
    List.find?_nil]

theorem matchPower_head (c : Char) (l : List Char) (hc : c ≠ 'I') :
    matchPower (c :: l) = false := by
  unfold matchPower
  rw [wrapped_not_prefixOf]
  · rfl
  · simp [List.isPrefixOf]
    intro h
    exact absurd h.symm hc

theorem matchPoly_head (c : Char) (l : List Char) (hc : c ≠ 'p') :
    matchPoly (c :: l) = false := by
  unfold matchPoly
  rw [wrapped_not_prefixOf]
  · rfl
  · simp [List.isPrefixOf]
    intro h
    exact absurd h.symm hc

theorem matchWrapWord_sandwich (pre name : List Char) (h1 : name ≠ [])
    (h2 : ∀ c ∈ name, isWordChar c = true) :
    matchWrapWord pre (pre ++ (name ++ [')'])) = true := by
  unfold matchWrapWord
  rw [wrapped_sandwich]
  simp [h1, List.all_eq_true]
  exact h2

theorem matchDummy_sandwich (name : List Char) (h1 : name ≠ [])
    (h2 : ∀ c ∈ name, isWordChar c = true) :
    matchDummy (['c', '('] ++ (name ++ [')'])) = true :=
  matchWrapWord_sandwich _ _ h1 h2

theorem matchPower_sandwich (inner : List Char) :
    matchPower (['I', '('] ++ (inner ++ [')'])) = true := by
  unfold matchPower
  rw [wrapped_sandwich]
  rfl

theorem matchPoly_sandwich (inner : List Char) :
    matchPoly (['p', 'o', 'l', 'y', '('] ++ (inner ++ [')'])) = true := by
  unfold matchPoly
  rw [wrapped_sandwich]
  rfl

theorem transformOpOf_op (op name : List Char) (hop : op ∈ opNames)
    (h1 : name ≠ []) (h2 : ∀ c ∈ name, isWordChar c = true) :
    transformOpOf ((op ++ ['(']) ++ (name ++ [')'])) = some op := by
  have pos : matchWrapWord (op ++ ['(']) ((op ++ ['(']) ++ (name ++ [')'])) =
      true := matchWrapWord_sandwich _ _ h1 h2
  unfold transformOpOf opNames
  simp only [opNames, List.mem_cons, List.not_mem_nil, or_false] at hop
  have nw : ∀ (op' f : List Char), (op' ++ ['(']).isPrefixOf f = false →
      ¬(matchWrapWord (op' ++ ['(']) f = true) := fun op' f h => by
    rw [matchWrapWord_eq_false_of_not_prefixOf _ _ h]
    simp
  rcases hop with rfl | rfl | rfl | rfl | rfl | rfl | rfl
  · simp only [List.find?_cons, pos]
  · have n0 : matchWrapWord (['l', 'o', 'g'] ++ ['(']) (['e', 'x', 'p'] ++ ['('] ++ (name ++ [')'])) = false :=
      matchWrapWord_eq_false_of_not_prefixOf _ _ (by simp [List.isPrefixOf])
    simp only [List.find?_cons, n0, pos]
  · have n0 : matchWrapWord (['l', 'o', 'g'] ++ ['(']) (['s', 'i', 'n'] ++ ['('] ++ (name ++ [')'])) = false :=
      matchWrapWord_eq_false_of_not_prefixOf _ _ (by simp [List.isPrefixOf])
    have n1 : matchWrapWord (['e', 'x', 'p'] ++ ['(']) (['s', 'i', 'n'] ++ ['('] ++ (name ++ [')'])) = false :=
      matchWrapWord_eq_false_of_not_prefixOf _ _ (by simp [List.isPrefixOf])
    simp only [List.find?_cons, n0, n1, pos]
  · have n0 : matchWrapWord (['l', 'o', 'g'] ++ ['(']) (['c', 'o', 's'] ++ ['('] ++ (name ++ [')'])) = false :=
      matchWrapWord_eq_false_of_not_prefixOf _ _ (by simp [List.isPrefixOf])
    have n1 : matchWrapWord (['e', 'x', 'p'] ++ ['(']) (['c', 'o', 's'] ++ ['('] ++ (name ++ [')'])) = false :=
      matchWrapWord_eq_false_of_not_prefixOf _ _ (by simp [List.isPrefixOf])
    have n2 : matchWrapWord (['s', 'i', 'n'] ++ ['(']) (['c', 'o', 's'] ++ ['('] ++ (name ++ [')'])) = false :=
      matchWrapWord_eq_false_of_not_prefixOf _ _ (by simp [List.isPrefixOf])
    simp only [List.find?_cons, n0, n1, n2, pos]
  · have n0 : matchWrapWord (['l', 'o', 'g'] ++ ['(']) (['t', 'a', 'n'] ++ ['('] ++ (name ++ [')'])) = false :=
      matchWrapWord_eq_false_of_not_prefixOf _ _ (by simp [List.isPrefixOf])
    have n1 : matchWrapWord (['e', 'x', 'p'] ++ ['(']) (['t', 'a', 'n'] ++ ['('] ++ (name ++ [')'])) = false :=
      matchWrapWord_eq_false_of_not_prefixOf _ _ (by simp [List.isPrefixOf])
    have n2 : matchWrapWord (['s', 'i', 'n'] ++ ['(']) (['t', 'a', 'n'] ++ ['('] ++ (name ++ [')'])) = false :=
      matchWrapWord_eq_false_of_not_prefixOf _ _ (by simp [List.isPrefixOf])
    have n3 : matchWrapWord (['c', 'o', 's'] ++ ['(']) (['t', 'a', 'n'] ++ ['('] ++ (name ++ [')'])) = false :=
      matchWrapWord_eq_false_of_not_prefixOf _ _ (by simp [List.isPrefixOf])
    simp only [List.find?_cons, n0, n1, n2, n3, pos]
  · have n0 : matchWrapWord (['l', 'o', 'g'] ++ ['(']) (['t', 'a', 'n', 'h'] ++ ['('] ++ (name ++ [')'])) = false :=
      matchWrapWord_eq_false_of_not_prefixOf _ _ (by simp [List.isPrefixOf])
    have n1 : matchWrapWord (['e', 'x', 'p'] ++ ['(']) (['t', 'a', 'n', 'h'] ++ ['('] ++ (name ++ [')'])) = false :=
      matchWrapWord_eq_false_of_not_prefixOf _ _ (by simp [List.isPrefixOf])
    have n2 : matchWrapWord (['s', 'i', 'n'] ++ ['(']) (['t', 'a', 'n', 'h'] ++ ['('] ++ (name ++ [')'])) = false :=
      matchWrapWord_eq_false_of_not_prefixOf _ _ (by simp [List.isPrefixOf])
    have n3 : matchWrapWord (['c', 'o', 's'] ++ ['(']) (['t', 'a', 'n', 'h'] ++ ['('] ++ (name ++ [')'])) = false :=
      matchWrapWord_eq_false_of_not_prefixOf _ _ (by simp [List.isPrefixOf])
    have n4 : matchWrapWord (['t', 'a', 'n'] ++ ['(']) (['t', 'a', 'n', 'h'] ++ ['('] ++ (name ++ [')'])) = false :=
      matchWrapWord_eq_false_of_not_prefixOf _ _ (by simp [List.isPrefixOf])
    simp only [List.find?_cons, n0, n1, n2, n3, n4, pos]
  · have n0 : matchWrapWord (['l', 'o', 'g'] ++ ['(']) (['s', 'q', 'r', 't'] ++ ['('] ++ (name ++ [')'])) = false :=
      matchWrapWord_eq_false_of_not_prefixOf _ _ (by simp [List.isPrefixOf])
    have n1 : matchWrapWord (['e', 'x', 'p'] ++ ['(']) (['s', 'q', 'r', 't'] ++ ['('] ++ (name ++ [')'])) = false :=
      matchWrapWord_eq_false_of_not_prefixOf _ _ (by simp [List.isPrefixOf])
    have n2 : matchWrapWord (['s', 'i', 'n'] ++ ['(']) (['s', 'q', 'r', 't'] ++ ['('] ++ (name ++ [')'])) = false :=
      matchWrapWord_eq_false_of_not_prefixOf _ _ (by simp [List.isPrefixOf])
    have n3 : matchWrapWord (['c', 'o', 's'] ++ ['(']) (['s', 'q', 'r', 't'] ++ ['('] ++ (name ++ [')'])) = false :=
      matchWrapWord_eq_false_of_not_prefixOf _ _ (by simp [List.isPrefixOf])
    have n4 : matchWrapWord (['t', 'a', 'n'] ++ ['(']) (['s', 'q', 'r', 't'] ++ ['('] ++ (name ++ [')'])) = false :=
      matchWrapWord_eq_false_of_not_prefixOf _ _ (by simp [List.isPrefixOf])
    have n5 : matchWrapWord (['t', 'a', 'n', 'h'] ++ ['(']) (['s', 'q', 'r', 't'] ++ ['('] ++ (name ++ [')'])) = false :=
      matchWrapWord_eq_false_of_not_prefixOf _ _ (by simp [List.isPrefixOf])
    simp only [List.find?_cons, n0, n1, n2, n3, n4, n5, pos]

/-! ### Shape invariants for the design matrix -/

/-- The invariant giving claim C1: every row vector an array contributes has
length `n`, and an array with no rows only arises over an empty dataset. -/
def goodArr {α : Type} (n : Nat) (a : NpArr α) : Prop :=
  (∀ r ∈ rowsOf a, r.length = n) ∧ (rowsOf a = [] → n = 0)

theorem lookupCol_length {α : Type} (d : DataFrame α) (nm : List Char)
    (v : List α) (h : lookupCol d nm = some v) : v.length = d.nrows := by
  unfold lookupCol at h
  cases hf : d.cols.find? (fun c => c.1 == nm) with
  | none => rw [hf] at h; cases h
  | some c =>
    rw [hf] at h
    simp only [Option.map] at h
    injection h with h2
    rw [← h2]
    exact d.colsLen c (List.mem_of_find?_eq_some hf)

theorem length_insertLE {α : Type} [LinearOrder α] (x : α) (l : List α) :
    (insertLE x l).length = l.length + 1 := by
  induction l with
  | nil => rfl
  | cons y ys ih =>
    unfold insertLE
    split
    · simp
    · simp [ih]

theorem length_sortLE {α : Type} [LinearOrder α] (l : List α) :
    (sortLE l).length = l.length := by
  induction l with
  | nil => rfl
  | cons x xs ih => simp [sortLE, length_insertLE, ih]

theorem getDummies_row_length {α : Type} [LinearOrder α] [Zero α] [One α]
    (v : List α) : ∀ r ∈ getDummies v, r.length = v.length := by
  intro r hr
  obtain ⟨dv, _, rfl⟩ := List.mem_map.mp hr
  simp

theorem getDummies_eq_nil {α : Type} [LinearOrder α] [Zero α] [One α]
    (v : List α) (h : getDummies v = []) : v = [] := by
  unfold getDummies at h
  rw [List.map_eq_nil_iff] at h
  have : v.dedup.length = 0 := by rw [← length_sortLE, h]; rfl
  rw [← List.dedup_eq_nil]
  exact List.length_eq_zero.mp this

theorem mulBC_of_length {α : Type} [Mul α] (a b : List α)
    (h : a.length = b.length) :
    mulBC a b = some (List.zipWith (fun x y => x * y) a b) := by
  simp [mulBC, h]

theorem npMul_good {α : Type} [Mul α] (n : Nat) (x y z : NpArr α)
    (hx : goodArr n x) (hy : goodArr n y) (h : npMul x y = .ok z) :
    goodArr n z := by
  obtain ⟨hx1, hx2⟩ := hx
  obtain ⟨hy1, hy2⟩ := hy
  cases x with
  | vec a =>
    have ha : a.length = n := hx1 a (by simp [rowsOf])
    cases y with
    | vec b =>
      have hb : b.length = n := hy1 b (by simp [rowsOf])
      rw [npMul, mulBC_of_length a b (by omega)] at h
      simp only [Except.ok.injEq] at h
      subst h
      constructor
      · intro r hr
        simp only [rowsOf, List.mem_singleton] at hr
        subst hr
        simp
        omega
      · intro hcon
        simp [rowsOf] at hcon
    | mat m =>
      have hrows : ∀ r ∈ m, r.length = n := fun r hr => hy1 r (by simp [rowsOf, hr])
      have hsome : ∀ r ∈ m, (mulBC a r).isSome := by
        intro r hr
        rw [mulBC_of_length a r (by rw [ha, hrows r hr])]
        rfl
      obtain ⟨ys, h1, h2, h3⟩ := seqO_map (fun r => mulBC a r) m hsome
      rw [npMul, h1] at h
      simp only [Except.ok.injEq] at h
      subst h
      constructor
      · intro r hr
        simp only [rowsOf] at hr
        obtain ⟨w, hw, hgw⟩ := h3 r hr
        rw [mulBC_of_length a w (by rw [ha, hrows w hw])] at hgw
        simp only [Option.some.injEq] at hgw
        subst hgw
        simp
        rw [ha, hrows w hw]
        omega
      · intro hcon
        simp only [rowsOf] at hcon
        subst hcon
        simp only [List.length_nil] at h2
        have hmn : m = [] := List.length_eq_zero.mp h2.symm
        exact hy2 (by simp [rowsOf, hmn])
  | mat m =>
    have hrows : ∀ r ∈ m, r.length = n := fun r hr => hx1 r (by simp [rowsOf, hr])
    cases y with
    | vec b =>
      have hb : b.length = n := hy1 b (by simp [rowsOf])
      have hsome : ∀ r ∈ m, (mulBC r b).isSome := by
        intro r hr
        rw [mulBC_of_length r b (by rw [hb, hrows r hr])]
        rfl
      obtain ⟨ys, h1, h2, h3⟩ := seqO_map (fun r => mulBC r b) m hsome
      rw [npMul, h1] at h
      simp only [Except.ok.injEq] at h
      subst h
      constructor
      · intro r hr
        simp only [rowsOf] at hr
        obtain ⟨w, hw, hgw⟩ := h3 r hr
        rw [mulBC_of_length w b (by rw [hb, hrows w hw])] at hgw
        simp only [Option.some.injEq] at hgw
        subst hgw
        simp
        rw [hb, hrows w hw]
        omega
      · intro hcon
        simp only [rowsOf] at hcon
        subst hcon
        simp only [List.length_nil] at h2
        have hmn : m = [] := List.length_eq_zero.mp h2.symm
        exact hx2 (by simp [rowsOf, hmn])
    | mat m' =>
      have hrows' : ∀ r ∈ m', r.length = n := fun r hr => hy1 r (by simp [rowsOf, hr])
      by_cases hlen : m.length = m'.length
      · obtain ⟨ys, h1, h2, h3⟩ := seqO_zipWith mulBC (fun z => z.length = n)
          m m' hlen (by
            intro p hp q hq
            refine ⟨List.zipWith (fun u w => u * w) p q,
              mulBC_of_length p q (by rw [hrows p hp, hrows' q hq]), ?_⟩
            simp
            rw [hrows p hp, hrows' q hq]
            omega)
        rw [npMul, if_pos hlen, h1] at h
        simp only [Except.ok.injEq] at h
        subst h
        constructor
        · intro r hr
          exact h3 r hr
        · intro hcon
          simp only [rowsOf] at hcon
          subst hcon
          simp only [List.length_nil] at h2
          have hmn : m = [] := List.length_eq_zero.mp h2.symm
          exact hx2 (by simp [rowsOf, hmn])
      · rw [npMul, if_neg hlen] at h
        rcases m with _ | ⟨x, _ | ⟨x2, xs⟩⟩
        · -- m = []
          rcases m' with _ | ⟨y, _ | ⟨y2, ys'⟩⟩
          · exact absurd rfl hlen
          · -- arm `_, [y]` with an empty `m`
            have hb : bcRows ([] : List (List α)) [y] = some [] := rfl
            rw [hb] at h
            simp only [Except.ok.injEq] at h
            subst h
            refine ⟨by simp [rowsOf], fun _ => hx2 (by simp [rowsOf])⟩
          · have hb : bcRows ([] : List (List α)) (y :: y2 :: ys') = none := rfl
            rw [hb] at h
            exact Except.noConfusion h
        · -- m = [x]
          have hxlen : x.length = n := hrows x (by simp)
          have hsome : ∀ r ∈ m', (mulBC x r).isSome := by
            intro r hr
            rw [mulBC_of_length x r (by rw [hxlen, hrows' r hr])]
            rfl
          obtain ⟨ys, h1, h2, h3⟩ := seqO_map (fun r => mulBC x r) m' hsome
          have hb : bcRows [x] m' = seqO (m'.map (fun r => mulBC x r)) := by
            cases m' with
            | nil => rfl
            | cons y ys =>
              cases ys with
              | nil => rfl
              | cons y2 ys2 => rfl
          rw [hb, h1] at h
          simp only [Except.ok.injEq] at h
          subst h
          constructor
          · intro r hr
            simp only [rowsOf] at hr
            obtain ⟨w, hw, hgw⟩ := h3 r hr
            rw [mulBC_of_length x w (by rw [hxlen, hrows' w hw])] at hgw
            simp only [Option.some.injEq] at hgw
            subst hgw
            simp
            rw [hxlen, hrows' w hw]
            omega
          · intro hcon
            simp only [rowsOf] at hcon
            subst hcon
            simp only [List.length_nil] at h2
            have hmn : m' = [] := List.length_eq_zero.mp h2.symm
            exact hy2 (by simp [rowsOf, hmn])
        · -- m has at least two rows
          rcases m' with _ | ⟨y, _ | ⟨y2, ys'⟩⟩
          · have hb : bcRows (x :: x2 :: xs) ([] : List (List α)) = none := rfl
            rw [hb] at h
            exact Except.noConfusion h
          · -- arm `_, [y]`
            have hylen : y.length = n := hrows' y (by simp)
            have hsome : ∀ r ∈ x :: x2 :: xs, (mulBC r y).isSome := by
              intro r hr
              rw [mulBC_of_length r y (by rw [hylen, hrows r hr])]
              rfl
            obtain ⟨ys, h1, h2, h3⟩ := seqO_map (fun r => mulBC r y) _ hsome
            have hb : bcRows (x :: x2 :: xs) [y] =
                seqO ((x :: x2 :: xs).map (fun r => mulBC r y)) := rfl
            rw [hb, h1] at h
            simp only [Except.ok.injEq] at h
            subst h
            constructor
            · intro r hr
              simp only [rowsOf] at hr
              obtain ⟨w, hw, hgw⟩ := h3 r hr
              rw [mulBC_of_length w y (by rw [hylen, hrows w hw])] at hgw
              simp only [Option.some.injEq] at hgw
              subst hgw
              simp
              rw [hylen, hrows w hw]
              omega
            · intro hcon
              simp only [rowsOf] at hcon
              subst hcon
              simp at h2
          · have hb : bcRows (x :: x2 :: xs) (y :: y2 :: ys') = none := rfl
            rw [hb] at h
            exact Except.noConfusion h

theorem parse_op_raw {α : Type} [Monoid α] [Zero α] [LinearOrder α]
    (O : ScalarOps α) (d : DataFrame α) (f : List Char) (v : List α)
    (hl : lookupCol d f = some v) : parse_op O d f = .ok (.vec v) := by
  unfold parse_op
  rw [hl]

theorem parse_op_notcol {α : Type} [Monoid α] [Zero α] [LinearOrder α]
    (O : ScalarOps α) (d : DataFrame α) (f : List Char)
    (hl : lookupCol d f = none) :
    parse_op O d f =
      (if matchDummy f then
        match lookupCol d (innerParen f) with
        | some v => .ok (.mat (getDummies v))
        | none => .error (.unknownColumn (innerParen f))
      else
        match transformOpOf f with
        | some op =>
          match lookupCol d (innerParen f) with
          | none => .error (.unknownColumn (innerParen f))
          | some v =>
            match opFun O op with
            | some g => .ok (.vec (v.map g))
            | none => .error .numericEvaluation
        | none =>
          if matchPower f then
            match (splitOnChar '^' (powerInner f)).map strip with
            | [base, pow0] =>
              match expSpecResolve pow0 with
              | .error e => .error e
              | .ok espec =>
                match lookupCol d base with
                | none => .error (.unknownColumn base)
                | some v =>
                  match (match espec with
                         | .inl q => some q
                         | .inr s0 => parseFloat s0) with
                  | some q => .ok (.vec (v.map (fun x => O.pow x q)))
                  | none => .error .numericEvaluation
            | _ => .error .numericEvaluation
          else if matchPoly f then
            match (splitOnChar ',' (innerParen f)).map strip with
            | [nm, ks] =>
              match parseInt ks with
              | none => .error .numericEvaluation
              | some k =>
                if k < 1 then .error .invalidParameter
                else
                  match lookupCol d nm with
                  | none => .error (.unknownColumn nm)
                  | some v =>
                    .ok (.mat ((List.range k.toNat).map
                          (fun i => v.map (fun x => x ^ (i + 1)))))
            | _ => .error .numericEvaluation
          else .error .unsupportedOperation) := by
  unfold parse_op
  rw [hl]

theorem parse_op_good {α : Type} [Monoid α] [Zero α] [LinearOrder α]
    (O : ScalarOps α) (d : DataFrame α) (f : List Char) (a : NpArr α)
    (h : parse_op O d f = .ok a) : goodArr d.nrows a := by
  cases hl : lookupCol d f with
  | some v =>
    rw [parse_op_raw O d f v hl] at h
    simp only [Except.ok.injEq] at h
    subst h
    refine ⟨?_, ?_⟩
    · intro r hr
      simp only [rowsOf, List.mem_singleton] at hr
      rw [hr]
      exact lookupCol_length d f v hl
    · intro hcon
      simp [rowsOf] at hcon
  | none =>
    rw [parse_op_notcol O d f hl] at h
    by_cases hd : matchDummy f = true
    · rw [if_pos hd] at h
      cases hi : lookupCol d (innerParen f) with
      | some v =>
        simp only [hi, Except.ok.injEq] at h
        subst h
        refine ⟨?_, ?_⟩
        · intro r hr
          simp only [rowsOf] at hr
          rw [getDummies_row_length v r hr]
          exact lookupCol_length d _ v hi
        · intro hcon
          simp only [rowsOf] at hcon
          have hv : v = [] := getDummies_eq_nil v hcon
          have := lookupCol_length d _ v hi
          rw [hv] at this
          simpa using this.symm
      | none =>
        simp only [hi] at h
        exact Except.noConfusion h
    · rw [if_neg hd] at h
      cases hto : transformOpOf f with
      | some op =>
        simp only [hto] at h
        cases hi : lookupCol d (innerParen f) with
        | none =>
          simp only [hi] at h
          exact Except.noConfusion h
        | some v =>
          cases hg : opFun O op with
          | none =>
            simp only [hi, hg] at h
            exact Except.noConfusion h
          | some g =>
            simp only [hi, hg, Except.ok.injEq] at h
            subst h
            refine ⟨?_, ?_⟩
            · intro r hr
              simp only [rowsOf, List.mem_singleton] at hr
              rw [hr, List.length_map]
              exact lookupCol_length d _ v hi
            · intro hcon
              simp [rowsOf] at hcon
      | none =>
        simp only [hto] at h
        by_cases hp : matchPower f = true
        · rw [if_pos hp] at h
          cases hsp : (splitOnChar '^' (powerInner f)).map strip with
          | nil => simp only [hsp] at h; exact Except.noConfusion h
          | cons base rest =>
            cases rest with
            | nil => simp only [hsp] at h; exact Except.noConfusion h
            | cons pow0 rest2 =>
              cases rest2 with
              | cons r t => simp only [hsp] at h; exact Except.noConfusion h
              | nil =>
                simp only [hsp] at h
                cases hes : expSpecResolve pow0 with
                | error e => simp only [hes] at h; exact Except.noConfusion h
                | ok es =>
                  simp only [hes] at h
                  cases hb : lookupCol d base with
                  | none => simp only [hb] at h; exact Except.noConfusion h
                  | some v =>
                    simp only [hb] at h
                    have hgood : ∀ q : ℚ,
                        a = NpArr.vec (v.map (fun x => O.pow x q)) →
                        goodArr d.nrows a := by
                      intro q ha
                      subst ha
                      refine ⟨?_, ?_⟩
                      · intro r hr
                        simp only [rowsOf, List.mem_singleton] at hr
                        rw [hr, List.length_map]
                        exact lookupCol_length d _ v hb
                      · intro hcon
                        simp [rowsOf] at hcon
                    cases es with
                    | inl q =>
                      simp only [Except.ok.injEq] at h
                      exact hgood q h.symm
                    | inr s0 =>
                      cases hpf : parseFloat s0 with
                      | none => simp only [hpf] at h; exact Except.noConfusion h
                      | some q =>
                        simp only [hpf, Except.ok.injEq] at h
                        exact hgood q h.symm
        · by_cases hpl : matchPoly f = true
          · rw [if_neg hp, if_pos hpl] at h
            cases hsp : (splitOnChar ',' (innerParen f)).map strip with
            | nil => simp only [hsp] at h; exact Except.noConfusion h
            | cons nm rest =>
              cases rest with
              | nil => simp only [hsp] at h; exact Except.noConfusion h
              | cons ks rest2 =>
                cases rest2 with
                | cons r t => simp only [hsp] at h; exact Except.noConfusion h
                | nil =>
                  simp only [hsp] at h
                  cases hk : parseInt ks with
                  | none => simp only [hk] at h; exact Except.noConfusion h
                  | some k =>
                    simp only [hk] at h
                    by_cases hk1 : k < 1
                    · rw [if_pos hk1] at h; exact Except.noConfusion h
                    · rw [if_neg hk1] at h
                      cases hb : lookupCol d nm with
                      | none => simp only [hb] at h; exact Except.noConfusion h
                      | some v =>
                        simp only [hb, Except.ok.injEq] at h
                        subst h
                        refine ⟨?_, ?_⟩
                        · intro r hr
                          simp only [rowsOf] at hr
                          obtain ⟨i, _, rfl⟩ := List.mem_map.mp hr
                          rw [List.length_map]
                          exact lookupCol_length d _ v hb
                        · intro hcon
                          simp only [rowsOf] at hcon
                          rw [List.map_eq_nil_iff, List.range_eq_nil] at hcon
                          omega
          · rw [if_neg hp, if_neg hpl] at h
            exact Except.noConfusion h

theorem seqO_map_all_some {β γ : Type} (g : β → Option γ) (g2 : β → γ)
    (l : List β) (h : ∀ x ∈ l, g x = some (g2 x)) :
    seqO (l.map g) = some (l.map g2) := by
  induction l with
  | nil => rfl
  | cons x xs ih =>
    rw [List.map_cons, h x (by simp), List.map_cons]
    simp [seqO, ih (fun y hy => h y (by simp [hy]))]

theorem parse_feature_term_good {α : Type} [Monoid α] [Zero α] [LinearOrder α]
    (O : ScalarOps α) (d : DataFrame α) (f : List Char) (l : List (NpArr α))
    (h : parse_feature_term O d f = .ok l) :
    l ≠ [] ∧ ∀ a ∈ l, goodArr d.nrows a := by
  rw [parse_feature_term] at h
  by_cases h1 : f = ['1']
  · rw [if_pos h1] at h
    simp only [Except.ok.injEq] at h
    subst h
    refine ⟨by simp, ?_⟩
    intro x hx
    simp only [List.mem_singleton] at hx
    rw [hx]
    refine ⟨?_, by simp [rowsOf]⟩
    intro r hr
    simp only [rowsOf, List.mem_singleton] at hr
    rw [hr]
    simp
  · rw [if_neg h1] at h
    by_cases h2 : ':' ∈ f
    · rw [if_pos h2] at h
      cases hsp : (splitOnChar ':' f).map strip with
      | nil => simp only [hsp] at h; exact Except.noConfusion h
      | cons a rest =>
        cases rest with
        | nil => simp only [hsp] at h; exact Except.noConfusion h
        | cons b rest2 =>
          cases rest2 with
          | cons r t => simp only [hsp] at h; exact Except.noConfusion h
          | nil =>
            simp only [hsp] at h
            cases hx1 : parse_op O d a with
            | error e => simp only [hx1] at h; exact Except.noConfusion h
            | ok x1 =>
              simp only [hx1] at h
              cases hx2 : parse_op O d b with
              | error e => simp only [hx2] at h; exact Except.noConfusion h
              | ok x2 =>
                simp only [hx2] at h
                cases hm : npMul x1 x2 with
                | error e => simp only [hm] at h; exact Except.noConfusion h
                | ok p =>
                  simp only [hm, Except.ok.injEq] at h
                  subst h
                  refine ⟨by simp, ?_⟩
                  intro x hx
                  simp only [List.mem_singleton] at hx
                  rw [hx]
                  exact npMul_good d.nrows x1 x2 p
                    (parse_op_good O d a x1 hx1)
                    (parse_op_good O d b x2 hx2) hm
    · rw [if_neg h2] at h
      by_cases h3 : '*' ∈ f
      · rw [if_pos h3] at h
        cases hsp : (splitOnChar '*' f).map strip with
        | nil => simp only [hsp] at h; exact Except.noConfusion h
        | cons a rest =>
          cases rest with
          | nil => simp only [hsp] at h; exact Except.noConfusion h
          | cons b rest2 =>
            cases rest2 with
            | cons r t => simp only [hsp] at h; exact Except.noConfusion h
            | nil =>
              simp only [hsp] at h
              cases hx1 : parse_op O d a with
              | error e => simp only [hx1] at h; exact Except.noConfusion h
              | ok x1 =>
                simp only [hx1] at h
                cases hx2 : parse_op O d b with
                | error e => simp only [hx2] at h; exact Except.noConfusion h
                | ok x2 =>
                  simp only [hx2] at h
                  cases hm : npMul x1 x2 with
                  | error e => simp only [hm] at h; exact Except.noConfusion h
                  | ok p =>
                    simp only [hm, Except.ok.injEq] at h
                    subst h
                    refine ⟨by simp, ?_⟩
                    intro x hx
                    have g1 := parse_op_good O d a x1 hx1
                    have g2 := parse_op_good O d b x2 hx2
                    rcases List.mem_cons.mp hx with rfl | hx2m
                    · exact g1
                    rcases List.mem_cons.mp hx2m with rfl | hx3m
                    · exact g2
                    simp only [List.mem_singleton] at hx3m
                    rw [hx3m]
                    exact npMul_good d.nrows x1 x2 p g1 g2 hm
      · rw [if_neg h3] at h
        cases hx : parse_op O d f with
        | error e => simp only [hx] at h; exact Except.noConfusion h
        | ok x =>
          simp only [hx, Except.ok.injEq] at h
          subst h
          refine ⟨by simp, ?_⟩
          intro y hy
          simp only [List.mem_singleton] at hy
          rw [hy]
          exact parse_op_good O d f x hx

theorem buildArrs_good {α : Type} [Monoid α] [Zero α] [LinearOrder α]
    (O : ScalarOps α) (d : DataFrame α) (fs : List (List Char))
    (l : List (NpArr α)) (h : buildArrs O d fs = .ok l) :
    (∀ a ∈ l, goodArr d.nrows a) ∧ (fs ≠ [] → l ≠ []) := by
  induction fs generalizing l with
  | nil =>
    rw [buildArrs] at h
    simp only [Except.ok.injEq] at h
    subst h
    exact ⟨by simp, by simp⟩
  | cons f rest ih =>
    rw [buildArrs] at h
    cases hft : parse_feature_term O d f with
    | error e => simp only [hft] at h; exact Except.noConfusion h
    | ok xs =>
      simp only [hft] at h
      cases hrest : buildArrs O d rest with
      | error e => simp only [hrest] at h; exact Except.noConfusion h
      | ok ys =>
        simp only [hrest, Except.ok.injEq] at h
        subst h
        obtain ⟨hne, hgood⟩ := parse_feature_term_good O d f xs hft
        obtain ⟨hgood2, _⟩ := ih ys hrest
        refine ⟨?_, fun _ => by simp [hne]⟩
        intro a ha
        rcases List.mem_append.mp ha with h1 | h2
        · exact hgood a h1
        · exact hgood2 a h2

theorem length_transposeRect {α : Type} (rows : List (List α)) (w : Nat) :
    (transposeRect rows w).length = w := by
  simp [transposeRect]

theorem vstackT_length {α : Type} (n : Nat) (arrs : List (NpArr α))
    (X : List (List α)) (hne : arrs ≠ [])
    (hg : ∀ a ∈ arrs, goodArr n a) (h : vstackT arrs = .ok X) :
    X.length = n := by
  rw [vstackT] at h
  have hrowlen : ∀ r ∈ (arrs.map rowsOf).flatten, r.length = n := by
    intro r hr
    rw [List.mem_flatten] at hr
    obtain ⟨l, hl, hrl⟩ := hr
    obtain ⟨a, ha, rfl⟩ := List.mem_map.mp hl
    exact (hg a ha).1 r hrl
  cases hfl : (arrs.map rowsOf).flatten with
  | nil =>
    simp only [hfl, Except.ok.injEq] at h
    subst h
    rcases arrs with _ | ⟨a, rest⟩
    · exact absurd rfl hne
    · have hz : rowsOf a = [] := by
        rw [List.flatten_eq_nil_iff] at hfl
        exact hfl (rowsOf a) (by simp)
      rw [List.length_nil]
      exact ((hg a (by simp)).2 hz).symm
  | cons r rest =>
    simp only [hfl] at h
    rw [if_pos ?_] at h
    · simp only [Except.ok.injEq] at h
      rw [← h, length_transposeRect]
      exact hrowlen r (by rw [hfl]; simp)
    · rw [List.all_eq_true]
      intro x hx
      have hxl : x.length = n := hrowlen x (by rw [hfl]; exact hx)
      have hrl : r.length = n := hrowlen r (by rw [hfl]; simp)
      simp [hxl, hrl]

theorem parse_features_length {α : Type} [Monoid α] [Zero α] [LinearOrder α]
    (O : ScalarOps α) (d : DataFrame α) (indep : List Char)
    (X : List (List α)) (h : parse_features O d indep = .ok X) :
    X.length = d.nrows := by
  rw [parse_features] at h
  cases hb : buildX O d indep with
  | error e => simp only [hb] at h; exact Except.noConfusion h
  | ok arrs =>
    simp only [hb] at h
    rw [buildX] at hb
    by_cases hnd : ((splitOnChar '+' indep).map strip).Nodup
    · rw [if_pos hnd] at hb
      obtain ⟨hgood, hne⟩ := buildArrs_good O d _ arrs hb
      refine vstackT_length d.nrows arrs X ?_ hgood h
      apply hne
      intro hcon
      have := splitOnP_ne_nil (fun x => x == '+') indep
      rw [show splitOnP (fun x => x == '+') indep = splitOnChar '+' indep from rfl] at this
      exact this (by simpa using hcon)
    · rw [if_neg hnd] at hb
      exact Except.noConfusion hb

theorem splitOnChar_two_of_count_one (c : Char) (s : List Char)
    (h : s.count c = 1) : ∃ a b, splitOnChar c s = [a, b] := by
  have hl := length_splitOnChar c s
  rw [h] at hl
  exact List.length_eq_two.mp hl

theorem call_fst_shapes {α : Type} [Monoid α] [Zero α] [LinearOrder α]
    (O : ScalarOps α) (self : FormulaInst α) (s : List Char) (d : DataFrame α)
    (X : List (List α)) (y : List α)
    (h : (call O self s d).1 = .ok (X, y)) :
    X.length = d.nrows ∧ y.length = d.nrows := by
  rw [call] at h
  by_cases hc : 1 < s.count '~'
  · rw [if_pos hc] at h
    exact Except.noConfusion h
  · rw [if_neg hc] at h
    cases hsm : (splitOnChar '~' s).map strip with
    | nil => simp only [hsm] at h; exact Except.noConfusion h
    | cons dep rest =>
      cases rest with
      | nil => simp only [hsm] at h; exact Except.noConfusion h
      | cons indep rest2 =>
        cases rest2 with
        | cons r t => simp only [hsm] at h; exact Except.noConfusion h
        | nil =>
          simp only [hsm] at h
          cases hy : lookupCol d dep with
          | none => simp only [hy] at h; exact Except.noConfusion h
          | some yv =>
            simp only [hy] at h
            cases hx : parse_features O d indep with
            | error e => simp only [hx] at h; exact Except.noConfusion h
            | ok X0 =>
              simp only [hx, Except.ok.injEq, Prod.mk.injEq] at h
              exact ⟨h.1 ▸ parse_features_length O d indep X0 hx,
                h.2 ▸ lookupCol_length d dep yv hy⟩

theorem call_snd_eq {α : Type} [Monoid α] [Zero α] [LinearOrder α]
    (O : ScalarOps α) (self : FormulaInst α) (s : List Char)
    (d : DataFrame α) :
    (call O self s d).2 =
      if s.count '~' = 1 then { self with data := some d } else self := by
  rw [call]
  by_cases hc : 1 < s.count '~'
  · rw [if_pos hc, if_neg (by omega)]
  · by_cases h1 : s.count '~' = 1
    · obtain ⟨a, b, hab⟩ := splitOnChar_two_of_count_one '~' s h1
      rw [if_neg hc, if_pos h1, hab]
      cases hy : lookupCol d (strip a) with
      | none => simp only [List.map_cons, List.map_nil, hy]
      | some yv =>
        simp only [List.map_cons, List.map_nil, hy]
        cases hx : parse_features O d (strip b) with
        | error e => simp only [hx]
        | ok X0 => simp only [hx]
    · have h0 : s.count '~' = 0 := by omega
      rw [if_neg hc, if_neg h1,
        splitOnChar_not_mem '~' s (List.count_eq_zero.mp h0)]
      rfl

theorem call_fst_state_independent {α : Type} [Monoid α] [Zero α]
    [LinearOrder α] (O : ScalarOps α) (s1 s2 : FormulaInst α)
    (s : List Char) (d : DataFrame α) :
    (call O s1 s d).1 = (call O s2 s d).1 := by
  rw [call, call]
  by_cases hc : 1 < s.count '~'
  · rw [if_pos hc, if_pos hc]
  · rw [if_neg hc, if_neg hc]
    cases hsm : (splitOnChar '~' s).map strip with
    | nil => simp only [hsm]
    | cons dep rest =>
      cases rest with
      | nil => simp only [hsm]
      | cons indep rest2 =>
        cases rest2 with
        | cons r t => simp only [hsm]
        | nil =>
          simp only [hsm]
          cases hy : lookupCol d dep with
          | none => simp only [hy]
          | some yv =>
            simp only [hy]
            cases hx : parse_features O d indep with
            | error e => simp only [hx]
            | ok X0 => simp only [hx]

theorem call_fst_sep_error {α : Type} [Monoid α] [Zero α] [LinearOrder α]
    (O : ScalarOps α) (self : FormulaInst α) (s : List Char) (d : DataFrame α)
    (hc : s.count '~' ≠ 1) :
    (call O self s d).1 = .error .formulaSyntax := by
  rw [call]
  by_cases h2 : 1 < s.count '~'
  · rw [if_pos h2]
  · have h0 : s.count '~' = 0 := by omega
    rw [if_neg h2, splitOnChar_not_mem '~' s (List.count_eq_zero.mp h0)]
    rfl

theorem parse_feature_term_interaction {α : Type} [Monoid α] [Zero α]
    [LinearOrder α] (O : ScalarOps α) (d : DataFrame α) (f a b : List Char)
    (x1 x2 : NpArr α) (p : NpArr α)
    (h2 : ':' ∈ f) (hsp : (splitOnChar ':' f).map strip = [a, b])
    (ha : parse_op O d a = .ok x1) (hb : parse_op O d b = .ok x2)
    (hm : npMul x1 x2 = .ok p) :
    parse_feature_term O d f = .ok [p] := by
  have h1 : f ≠ ['1'] := by
    rintro rfl
    simp at h2
  rw [parse_feature_term, if_neg h1, if_pos h2]
  simp only [hsp, ha, hb, hm]

theorem npMul_mat_vec {α : Type} [Mul α] (m : List (List α)) (v : List α)
    (hlen : ∀ r ∈ m, r.length = v.length) :
    npMul (.mat m) (.vec v) =
      .ok (.mat (m.map (fun r => List.zipWith (fun x y => x * y) r v))) := by
  rw [npMul, seqO_map_all_some (fun r => mulBC r v)
    (fun r => List.zipWith (fun x y => x * y) r v) m
    (fun r hr => mulBC_of_length r v (hlen r hr))]

theorem parse_feature_term_cross {α : Type} [Monoid α] [Zero α]
    [LinearOrder α] (O : ScalarOps α) (d : DataFrame α) (f a b : List Char)
    (va vb : List α)
    (h2 : ':' ∉ f) (h3 : '*' ∈ f)
    (hsp : (splitOnChar '*' f).map strip = [a, b])
    (ha : parse_op O d a = .ok (.vec va)) (hb : parse_op O d b = .ok (.vec vb))
    (hlen : va.length = vb.length) :
    parse_feature_term O d f =
      .ok [.vec va, .vec vb,
        .vec (List.zipWith (fun x y => x * y) va vb)] := by
  have h1 : f ≠ ['1'] := by
    rintro rfl
    simp at h3
  rw [parse_feature_term, if_neg h1, if_neg h2, if_pos h3]
  simp only [hsp, ha, hb, npMul, mulBC_of_length va vb hlen]

theorem matchDummy_cons2 (c1 c2 : Char) (l : List Char)
    (h : ¬(c1 = 'c' ∧ c2 = '(')) : matchDummy (c1 :: c2 :: l) = false := by
  unfold matchDummy
  apply matchWrapWord_eq_false_of_not_prefixOf
  simp [List.isPrefixOf]
  intro hc1 hc2
  exact h ⟨hc1.symm, hc2.symm⟩

theorem parse_op_dummy_branch {α : Type} [Monoid α] [Zero α] [LinearOrder α]
    (O : ScalarOps α) (d : DataFrame α) (t : List Char)
    (hl : lookupCol d t = none) (hmd : matchDummy t = true) :
    parse_op O d t =
      (match lookupCol d (innerParen t) with
       | some v => .ok (.mat (getDummies v))
       | none => .error (.unknownColumn (innerParen t))) := by
  rw [parse_op_notcol O d t hl, if_pos hmd]

theorem parse_op_transform_branch {α : Type} [Monoid α] [Zero α]
    [LinearOrder α] (O : ScalarOps α) (d : DataFrame α) (t op : List Char)
    (hl : lookupCol d t = none) (hmd : matchDummy t = false)
    (hto : transformOpOf t = some op) :
    parse_op O d t =
      (match lookupCol d (innerParen t) with
       | none => .error (.unknownColumn (innerParen t))
       | some v =>
         match opFun O op with
         | some g => .ok (.vec (v.map g))
         | none => .error .numericEvaluation) := by
  rw [parse_op_notcol O d t hl, if_neg (by simp [hmd])]
  simp only [hto]

theorem parse_op_power_branch {α : Type} [Monoid α] [Zero α] [LinearOrder α]
    (O : ScalarOps α) (d : DataFrame α) (t : List Char)
    (hl : lookupCol d t = none) (hmd : matchDummy t = false)
    (hto : transformOpOf t = none) (hp : matchPower t = true) :
    parse_op O d t =
      (match (splitOnChar '^' (powerInner t)).map strip with
       | [base, pow0] =>
         match expSpecResolve pow0 with
         | .error e => .error e
         | .ok espec =>
           match lookupCol d base with
           | none => .error (.unknownColumn base)
           | some v =>
             match (match espec with
                    | .inl q => some q
                    | .inr s0 => parseFloat s0) with
             | some q => .ok (.vec (v.map (fun x => O.pow x q)))
             | none => .error .numericEvaluation
       | _ => .error .numericEvaluation) := by
  rw [parse_op_notcol O d t hl, if_neg (by simp [hmd])]
  simp only [hto]
  rw [if_pos hp]

theorem parse_op_poly_branch {α : Type} [Monoid α] [Zero α] [LinearOrder α]
    (O : ScalarOps α) (d : DataFrame α) (t : List Char)
    (hl : lookupCol d t = none) (hmd : matchDummy t = false)
    (hto : transformOpOf t = none) (hp : matchPower t = false)
    (hpl : matchPoly t = true) :
    parse_op O d t =
      (match (splitOnChar ',' (innerParen t)).map strip with
       | [nm, ks] =>
         match parseInt ks with
         | none => .error .numericEvaluation
         | some k =>
           if k < 1 then .error .invalidParameter
           else
             match lookupCol d nm with
             | none => .error (.unknownColumn nm)
             | some v =>
               .ok (.mat ((List.range k.toNat).map
                     (fun i => v.map (fun x => x ^ (i + 1)))))
       | _ => .error .numericEvaluation) := by
  rw [parse_op_notcol O d t hl, if_neg (by simp [hmd])]
  simp only [hto]
  rw [if_neg (by simp [hp]), if_pos hpl]

theorem parse_op_unsupported {α : Type} [Monoid α] [Zero α] [LinearOrder α]
    (O : ScalarOps α) (d : DataFrame α) (t : List Char)
    (hl : lookupCol d t = none) (hmd : matchDummy t = false)
    (hto : transformOpOf t = none) (hp : matchPower t = false)
    (hpl : matchPoly t = false) :
    parse_op O d t = .error .unsupportedOperation := by
  rw [parse_op_notcol O d t hl, if_neg (by simp [hmd])]
  simp only [hto]
  rw [if_neg (by simp [hp]), if_neg (by simp [hpl])]

/-! ### Term shapes of the formula grammar (spec §6), used to state claims -/

/-- The shape of a dummy term `c(<name>)`. -/
def dummyTerm (name : List Char) : List Char := ['c', '('] ++ (name ++ [')'])

/-- The shape of a transform term `<op>(<name>)`. -/
def transformTerm (op name : List Char) : List Char :=
  (op ++ ['(']) ++ (name ++ [')'])

/-- The shape of a power term `I(<name>^<spec>)`. -/
def powerTerm (name spec : List Char) : List Char :=
  ['I', '('] ++ ((name ++ '^' :: spec) ++ [')'])

/-- The shape of a polynomial term `poly(<name>,<k>)`. -/
def polyTerm (name ks : List Char) : List Char :=
  ['p', 'o', 'l', 'y', '('] ++ ((name ++ ',' :: ks) ++ [')'])

/-! ### Concrete datasets used by witnesses and counterexamples -/

/-- Columns x = [1,2,3], y = [10,20,30] (spec §8, scenario 1). -/
def dfW1 : DataFrame ℤ :=
  ⟨3, [(['x'], [1, 2, 3]), (['y'], [10, 20, 30])], by decide, by decide⟩

/-- A dataset with a column literally named `c(age)` next to a column
named `age`. -/
def dfShadow : DataFrame ℤ :=
  ⟨2, [("age".toList, [30, 40]), ("c(age)".toList, [1, 2])],
   by decide, by decide⟩

/-- Columns g = [1,2] (two categories), x = [3,4], z = [1,2], y = [0,0]. -/
def dfC5 : DataFrame ℤ :=
  ⟨2, [(['g'], [1, 2]), (['x'], [3, 4]), (['z'], [1, 2]), (['y'], [0, 0])],
   by decide, by decide⟩

/-- A real-valued dataset with a non-negative column x = [0,1,4]. -/
def dfR : DataFrame ℝ :=
  ⟨3, [(['x'], [0, 1, 4]), (['y'], [0, 0, 0])], by decide, by simp⟩

/-! ### The claims -/

/-- C1: for every formula string and dataset on which evaluation succeeds,
the design matrix `X` has exactly `n` rows and the response vector `y` has
exactly `n` entries, `n` the dataset's row count. -/
theorem c1_result_shapes {α : Type} [Monoid α] [Zero α] [LinearOrder α]
    (O : ScalarOps α) (self : FormulaInst α) (s : List Char) (d : DataFrame α)
    (X : List (List α)) (y : List α)
    (h : (call O self s d).1 = .ok (X, y)) :
    X.length = d.nrows ∧ y.length = d.nrows :=
  call_fst_shapes O self s d X y h

/-- Witness for C1: `"y ~ 1 + x"` on x = [1,2,3], y = [10,20,30] succeeds
with a 3-row design matrix and a 3-entry response (spec scenario 1). -/
theorem c1_result_shapes_witness :
    (call intOps ⟨none, none⟩ ("y ~ 1 + x".toList) dfW1).1 =
      .ok ([[1, 1], [1, 2], [1, 3]], [10, 20, 30]) ∧
    ([[1, 1], [1, 2], [1, 3]] : List (List ℤ)).length = dfW1.nrows ∧
    ([10, 20, 30] : List ℤ).length = dfW1.nrows :=
  ⟨by decide,
   c1_result_shapes intOps ⟨none, none⟩ ("y ~ 1 + x".toList) dfW1
     [[1, 1], [1, 2], [1, 3]] [10, 20, 30] (by decide)⟩

/-- C2: a term string that exactly equals an existing dataset column name
resolves to that column's values unchanged — the raw-column check precedes
every pattern match, so a column literally named e.g. `c(age)` shadows the
pattern interpretation. -/
theorem c2_raw_column_shadowing {α : Type} [Monoid α] [Zero α] [LinearOrder α]
    (O : ScalarOps α) (d : DataFrame α) (t : List Char) (v : List α)
    (hl : lookupCol d t = some v) :
    parse_op O d t = .ok (.vec v) :=
  parse_op_raw O d t v hl

/-- Witness for C2: the term `c(age)` on a dataset having a column of that
very name resolves to that raw column (not to dummies of `age`). -/
theorem c2_raw_column_shadowing_witness :
    lookupCol dfShadow ("c(age)".toList) = some [1, 2] ∧
    parse_op intOps dfShadow ("c(age)".toList) = .ok (.vec [1, 2]) :=
  ⟨by decide, c2_raw_column_shadowing intOps dfShadow ("c(age)".toList)
    [1, 2] (by decide)⟩

/-- C4 counterexample: `__call__` executes `self.data = data`, so calling the
evaluator does change the instance state: a fresh instance has no `data`
attribute set, and after one successful call it holds the dataset. -/
theorem c4_counterexample :
    ((call intOps ⟨none, none⟩ ("y ~ x".toList) dfW1).2).data.isSome = true ∧
    ((⟨none, none⟩ : FormulaInst ℤ)).data.isSome = false :=
  ⟨by decide, by decide⟩

/-- C4 amended: the returned result is a pure function of
(formulaString, dataset) — it never depends on the prior instance state —
but the call is not free of effects on the evaluator: whenever the
separator check passes, the instance's `data` attribute is overwritten with
the dataset (before that check unpacks, the state is left unchanged). -/
theorem c4_result_pure_state_mutated {α : Type} [Monoid α] [Zero α]
    [LinearOrder α] (O : ScalarOps α) :
    (∀ (s1 s2 : FormulaInst α) (s : List Char) (d : DataFrame α),
      (call O s1 s d).1 = (call O s2 s d).1) ∧
    (∀ (self : FormulaInst α) (s : List Char) (d : DataFrame α),
      (call O self s d).2 =
        if s.count '~' = 1 then { self with data := some d } else self) :=
  ⟨fun s1 s2 s d => call_fst_state_independent O s1 s2 s d,
   fun self s d => call_snd_eq O self s d⟩

/-- C6: a formula whose number of `~` separators differs from one fails with
FormulaSyntaxError and returns no (X, y).  Two or more separators hit the
explicit count check; zero separators fail in the 2-tuple unpacking of
`string.split("~")` — the same Python `ValueError`, classified by the spec
(§3) as a syntax error. -/
theorem c6_separator_count {α : Type} [Monoid α] [Zero α] [LinearOrder α]
    (O : ScalarOps α) (self : FormulaInst α) (s : List Char) (d : DataFrame α)
    (hc : s.count '~' ≠ 1) :
    (call O self s d).1 = .error .formulaSyntax :=
  call_fst_sep_error O self s d hc

/-- Witness for C6 at the two-separator formula of spec scenario 6. -/
theorem c6_separator_count_witness :
    ("y ~ x ~ z".toList.count '~' ≠ 1) ∧
    (call intOps ⟨none, none⟩ ("y ~ x ~ z".toList) dfW1).1 =
      .error .formulaSyntax :=
  ⟨by decide, c6_separator_count intOps ⟨none, none⟩ ("y ~ x ~ z".toList)
    dfW1 (by decide)⟩

/-- C10: a term of shape `I(<inner>)` that is not itself a dataset column
and whose `<inner>` does not contain exactly one `^` (none, or two or more)
makes term resolution raise — the `ValueError` from unpacking the
`^`-split into two pieces, a numeric-evaluation failure.  No later pattern
or fallback is consulted. -/
theorem c10_power_caret_arity {α : Type} [Monoid α] [Zero α] [LinearOrder α]
    (O : ScalarOps α) (d : DataFrame α) (inner : List Char)
    (hl : lookupCol d (['I', '('] ++ (inner ++ [')'])) = none)
    (hc : inner.count '^' ≠ 1) :
    parse_op O d (['I', '('] ++ (inner ++ [')'])) =
      .error .numericEvaluation := by
  have hmd : matchDummy (['I', '('] ++ (inner ++ [')'])) = false :=
    matchDummy_head 'I' _ (by decide)
  have hto : transformOpOf (['I', '('] ++ (inner ++ [')'])) = none :=
    transformOpOf_head 'I' _ (by decide) (by decide) (by decide) (by decide)
      (by decide)
  have hp : matchPower (['I', '('] ++ (inner ++ [')'])) = true :=
    matchPower_sandwich inner
  rw [parse_op_power_branch O d _ hl hmd hto hp, powerInner_sandwich inner]
  have hlen : ((splitOnChar '^' inner).map strip).length ≠ 2 := by
    rw [List.length_map, length_splitOnChar]
    omega
  cases hsp : (splitOnChar '^' inner).map strip with
  | nil => simp only [hsp]
  | cons b rest =>
    cases rest with
    | nil => simp only [hsp]
    | cons p2 rest2 =>
      cases rest2 with
      | nil => rw [hsp] at hlen; simp at hlen
      | cons r t => simp only [hsp]

/-- Witness for C10: the caret-free term `I(x)` (x a dataset column) fails
with the unpack error rather than resolving. -/
theorem c10_power_caret_arity_witness :
    parse_op intOps dfW1 ("I(x)".toList) = .error .numericEvaluation :=
  c10_power_caret_arity intOps dfW1 ['x'] (by decide) (by decide)

/-- C8: a well-formed `poly(<name>,<k>)` term (not itself a column name)
fails with InvalidParameterError when `k < 1`, and otherwise resolves to
exactly `k` vectors equal to `name^1, …, name^k`, in ascending degree
order. -/
theorem c8_polynomial_expansion {α : Type} [Monoid α] [Zero α] [LinearOrder α]
    (O : ScalarOps α) (d : DataFrame α) (name ks : List Char) (k : Int)
    (v : List α)
    (hn2 : ∀ c ∈ name, isWordChar c = true)
    (hk1 : ')' ∉ ks) (hk2 : ',' ∉ ks)
    (hl : lookupCol d (polyTerm name ks) = none)
    (hk : parseInt (strip ks) = some k) :
    (k < 1 → parse_op O d (polyTerm name ks) = .error .invalidParameter) ∧
    (1 ≤ k → lookupCol d name = some v →
      parse_op O d (polyTerm name ks) =
        .ok (.mat ((List.range k.toNat).map
          (fun i => v.map (fun x => x ^ (i + 1)))))) := by
  have hmd : matchDummy (polyTerm name ks) = false :=
    matchDummy_head 'p' _ (by decide)
  have hto : transformOpOf (polyTerm name ks) = none :=
    transformOpOf_head 'p' _ (by decide) (by decide) (by decide) (by decide)
      (by decide)
  have hp : matchPower (polyTerm name ks) = false :=
    matchPower_head 'p' _ (by decide)
  have hpl : matchPoly (polyTerm name ks) = true :=
    matchPoly_sandwich (name ++ ',' :: ks)
  have hip : innerParen (polyTerm name ks) = name ++ ',' :: ks :=
    innerParen_sandwich ['p', 'o', 'l', 'y'] (name ++ ',' :: ks) []
      (by decide) (by decide)
      (by
        intro hmem
        rcases List.mem_append.mp hmem with h1 | h1
        · exact wordChars_not_mem hn2 (by decide) h1
        · rcases List.mem_cons.mp h1 with h2 | h2
          · exact absurd h2 (by decide)
          · exact hk1 h2)
  have hsp : (splitOnChar ',' (name ++ ',' :: ks)).map strip =
      [name, strip ks] := by
    rw [splitOnChar_sandwich ',' name ks (wordChars_not_mem hn2 (by decide)),
      splitOnChar_not_mem ',' ks hk2]
    simp [strip_wordChars hn2]
  constructor
  · intro hklt
    rw [parse_op_poly_branch O d _ hl hmd hto hp hpl, hip]
    simp only [hsp, hk, if_pos hklt]
  · intro hkge hv
    rw [parse_op_poly_branch O d _ hl hmd hto hp hpl, hip]
    simp only [hsp, hk, if_neg (by omega : ¬k < 1), hv]

/-- Witness for C8: on x = [1,2,3], `poly(x,0)` raises InvalidParameterError
and `poly(x,2)` yields the columns x¹ and x² in that order (spec §8,
scenario 3 analogue). -/
theorem c8_polynomial_expansion_witness :
    parse_op intOps dfW1 ("poly(x,0)".toList) = .error .invalidParameter ∧
    parse_op intOps dfW1 ("poly(x,2)".toList) =
      .ok (.mat [[1, 2, 3], [1, 4, 9]]) := by
  constructor
  · exact (c8_polynomial_expansion intOps dfW1 ['x'] ['0'] 0 [1, 2, 3]
      (by decide) (by decide) (by decide) (by decide)
      (by decide)).1 (by decide)
  · exact ((c8_polynomial_expansion intOps dfW1 ['x'] ['2'] 2 [1, 2, 3]
      (by decide) (by decide) (by decide) (by decide)
      (by decide)).2 (by decide) (by decide)).trans (by decide)

/-- C3 counterexample: the bare term `z`, naming no dataset column, fails
with UnsupportedOperationError ("The current operation is not supported"),
not with UnknownColumnError as the claim states for bare names. -/
theorem c3_counterexample :
    (call intOps ⟨none, none⟩ ("y ~ z".toList) dfW1).1 =
      .error .unsupportedOperation := by decide

/-- C3 amended: pattern terms (`c(name)`, `op(name)`, `I(name^spec)`,
`poly(name,k)`, otherwise well-formed and not themselves column names)
whose referenced column is absent fail with UnknownColumnError (a pandas
`KeyError`); a bare name that is not a column matches no syntax class and
fails with UnsupportedOperationError instead (proved by the
counterexample). -/
theorem c3_missing_column_errors {α : Type} [Monoid α] [Zero α]
    [LinearOrder α] (O : ScalarOps α) :
    (∀ (d : DataFrame α) (name : List Char), name ≠ [] →
      (∀ c ∈ name, isWordChar c = true) →
      lookupCol d (dummyTerm name) = none → lookupCol d name = none →
      parse_op O d (dummyTerm name) = .error (.unknownColumn name)) ∧
    (∀ (d : DataFrame α) (op name : List Char), op ∈ opNames → name ≠ [] →
      (∀ c ∈ name, isWordChar c = true) →
      lookupCol d (transformTerm op name) = none → lookupCol d name = none →
      parse_op O d (transformTerm op name) = .error (.unknownColumn name)) ∧
    (∀ (d : DataFrame α) (name spec : List Char) (es : ℚ ⊕ List Char),
      (∀ c ∈ name, isWordChar c = true) → '^' ∉ spec →
      lookupCol d (powerTerm name spec) = none →
      expSpecResolve (strip spec) = .ok es → lookupCol d name = none →
      parse_op O d (powerTerm name spec) = .error (.unknownColumn name)) ∧
    (∀ (d : DataFrame α) (name ks : List Char) (k : Int),
      (∀ c ∈ name, isWordChar c = true) → ')' ∉ ks → ',' ∉ ks →
      lookupCol d (polyTerm name ks) = none →
      parseInt (strip ks) = some k → 1 ≤ k → lookupCol d name = none →
      parse_op O d (polyTerm name ks) = .error (.unknownColumn name)) := by
  refine ⟨?_, ?_, ?_, ?_⟩
  · -- dummy branch
    intro d name hn1 hn2 hl hname
    have hmd : matchDummy (dummyTerm name) = true :=
      matchDummy_sandwich name hn1 hn2
    have hip : innerParen (dummyTerm name) = name :=
      innerParen_sandwich ['c'] name [] (by decide) (by decide)
        (wordChars_not_mem hn2 (by decide))
    rw [parse_op_dummy_branch O d _ hl hmd, hip, hname]
  · -- transform branch
    intro d op name hop hn1 hn2 hl hname
    have hto : transformOpOf (transformTerm op name) = some op :=
      transformOpOf_op op name hop hn1 hn2
    have hspec := hop
    simp only [opNames, List.mem_cons, List.not_mem_nil, or_false] at hspec
    have hmd : matchDummy (transformTerm op name) = false := by
      rcases hspec with rfl | rfl | rfl | rfl | rfl | rfl | rfl
      · exact matchDummy_cons2 'l' 'o' _ (by decide)
      · exact matchDummy_cons2 'e' 'x' _ (by decide)
      · exact matchDummy_cons2 's' 'i' _ (by decide)
      · exact matchDummy_cons2 'c' 'o' _ (by decide)
      · exact matchDummy_cons2 't' 'a' _ (by decide)
      · exact matchDummy_cons2 't' 'a' _ (by decide)
      · exact matchDummy_cons2 's' 'q' _ (by decide)
    have hip : innerParen (transformTerm op name) = name := by
      rcases hspec with rfl | rfl | rfl | rfl | rfl | rfl | rfl
      · exact innerParen_sandwich ['l', 'o', 'g'] name [] (by decide)
          (by decide) (wordChars_not_mem hn2 (by decide))
      · exact innerParen_sandwich ['e', 'x', 'p'] name [] (by decide)
          (by decide) (wordChars_not_mem hn2 (by decide))
      · exact innerParen_sandwich ['s', 'i', 'n'] name [] (by decide)
          (by decide) (wordChars_not_mem hn2 (by decide))
      · exact innerParen_sandwich ['c', 'o', 's'] name [] (by decide)
          (by decide) (wordChars_not_mem hn2 (by decide))
      · exact innerParen_sandwich ['t', 'a', 'n'] name [] (by decide)
          (by decide) (wordChars_not_mem hn2 (by decide))
      · exact innerParen_sandwich ['t', 'a', 'n', 'h'] name [] (by decide)
          (by decide) (wordChars_not_mem hn2 (by decide))
      · exact innerParen_sandwich ['s', 'q', 'r', 't'] name [] (by decide)
          (by decide) (wordChars_not_mem hn2 (by decide))
    rw [parse_op_transform_branch O d _ op hl hmd hto, hip, hname]
  · -- power branch
    intro d name spec es hn2 hspec hl hes hname
    have hmd : matchDummy (powerTerm name spec) = false :=
      matchDummy_head 'I' _ (by decide)
    have hto : transformOpOf (powerTerm name spec) = none :=
      transformOpOf_head 'I' _ (by decide) (by decide) (by decide) (by decide)
        (by decide)
    have hp : matchPower (powerTerm name spec) = true :=
      matchPower_sandwich (name ++ '^' :: spec)
    have hpi : powerInner (powerTerm name spec) = name ++ '^' :: spec :=
      powerInner_sandwich (name ++ '^' :: spec)
    rw [parse_op_power_branch O d _ hl hmd hto hp, hpi]
    have hsp : (splitOnChar '^' (name ++ '^' :: spec)).map strip =
        [name, strip spec] := by
      rw [splitOnChar_sandwich '^' name spec (wordChars_not_mem hn2 (by decide)),
        splitOnChar_not_mem '^' spec hspec]
      simp [strip_wordChars hn2]
    simp only [hsp, hes, hname]
  · -- polynomial branch
    intro d name ks k hn2 hk1 hk2 hl hk hkge hname
    have hmd : matchDummy (polyTerm name ks) = false :=
      matchDummy_head 'p' _ (by decide)
    have hto : transformOpOf (polyTerm name ks) = none :=
      transformOpOf_head 'p' _ (by decide) (by decide) (by decide) (by decide)
        (by decide)
    have hp : matchPower (polyTerm name ks) = false :=
      matchPower_head 'p' _ (by decide)
    have hpl : matchPoly (polyTerm name ks) = true :=
      matchPoly_sandwich (name ++ ',' :: ks)
    have hip : innerParen (polyTerm name ks) = name ++ ',' :: ks :=
      innerParen_sandwich ['p', 'o', 'l', 'y'] (name ++ ',' :: ks) []
        (by decide) (by decide)
        (by
          intro hmem
          rcases List.mem_append.mp hmem with h1 | h1
          · exact wordChars_not_mem hn2 (by decide) h1
          · rcases List.mem_cons.mp h1 with h2 | h2
            · exact absurd h2 (by decide)
            · exact hk1 h2)
    have hsp : (splitOnChar ',' (name ++ ',' :: ks)).map strip =
        [name, strip ks] := by
      rw [splitOnChar_sandwich ',' name ks (wordChars_not_mem hn2 (by decide)),
        splitOnChar_not_mem ',' ks hk2]
      simp [strip_wordChars hn2]
    rw [parse_op_poly_branch O d _ hl hmd hto hp hpl, hip]
    simp only [hsp, hk, if_neg (by omega : ¬k < 1), hname]

/-- Witness for the amended C3: on a dataset without a column `m`, the
terms `c(m)`, `log(m)`, `I(m^2)` and `poly(m,2)` all fail with
UnknownColumnError naming `m`. -/
theorem c3_missing_column_errors_witness :
    parse_op intOps dfW1 ("c(m)".toList) = .error (.unknownColumn ['m']) ∧
    parse_op intOps dfW1 ("log(m)".toList) = .error (.unknownColumn ['m']) ∧
    parse_op intOps dfW1 ("I(m^2)".toList) = .error (.unknownColumn ['m']) ∧
    parse_op intOps dfW1 ("poly(m,2)".toList) =
      .error (.unknownColumn ['m']) := by
  refine ⟨?_, ?_, ?_, ?_⟩
  · exact (c3_missing_column_errors intOps).1 dfW1 ['m'] (by decide)
      (by decide) (by decide) (by decide)
  · exact (c3_missing_column_errors intOps).2.1 dfW1 ['l', 'o', 'g'] ['m']
      (by decide) (by decide) (by decide) (by decide) (by decide)
  · exact (c3_missing_column_errors intOps).2.2.1 dfW1 ['m'] ['2']
      (.inr ['2']) (by decide) (by decide) (by decide) (by decide) (by decide)
  · exact (c3_missing_column_errors intOps).2.2.2 dfW1 ['m'] ['2'] 2
      (by decide) (by decide) (by decide) (by decide) (by decide) (by decide)
      (by decide)

/-- C9: a cross term `A*B` whose two operands each resolve to a single
vector appends exactly three columns equal to A, B, and the elementwise
product A·B, in that order. -/
theorem c9_cross_term {α : Type} [Monoid α] [Zero α] [LinearOrder α]
    (O : ScalarOps α) (d : DataFrame α) (f a b : List Char) (va vb : List α)
    (h2 : ':' ∉ f) (h3 : '*' ∈ f)
    (hsp : (splitOnChar '*' f).map strip = [a, b])
    (ha : parse_op O d a = .ok (.vec va)) (hb : parse_op O d b = .ok (.vec vb))
    (hlen : va.length = vb.length) :
    parse_feature_term O d f =
      .ok [.vec va, .vec vb, .vec (List.zipWith (fun x y => x * y) va vb)] :=
  parse_feature_term_cross O d f a b va vb h2 h3 hsp ha hb hlen

/-- Witness for C9: the term `x*z` on x = [3,4], z = [1,2] appends x, z and
x·z; the formula `"y ~ x*z"` assembles exactly those three columns in that
order. -/
theorem c9_cross_term_witness :
    parse_feature_term intOps dfC5 ("x*z".toList) =
      .ok [.vec [3, 4], .vec [1, 2], .vec [3, 8]] ∧
    (call intOps ⟨none, none⟩ ("y ~ x*z".toList) dfC5).1 =
      .ok ([[3, 1, 3], [4, 2, 8]], [0, 0]) := by
  constructor
  · exact (c9_cross_term intOps dfC5 ("x*z".toList) ['x'] ['z'] [3, 4] [1, 2]
      (by decide) (by decide) (by decide) (by decide) (by decide)
      (by decide)).trans (by decide)
  · decide

/-- C5 counterexample: in `"y ~ c(g):x"` the operand `c(g)` resolves to two
dummy vectors, yet evaluation does not fail: NumPy broadcasting multiplies
each dummy row by x and the call succeeds, returning a 2-column design
matrix. -/
theorem c5_counterexample :
    parse_op intOps dfC5 ("c(g)".toList) = .ok (.mat [[1, 0], [0, 1]]) ∧
    (call intOps ⟨none, none⟩ ("y ~ c(g):x".toList) dfC5).1 =
      .ok ([[3, 0], [0, 4]], [0, 0]) :=
  ⟨by decide, by decide⟩

/-- C5 amended: an interaction term `A:B` with a multi-vector operand (m
row vectors) and a single-vector operand does not fail: NumPy broadcasting
produces the m elementwise products, appended as one m-row stack (m
columns of the design matrix).  An explicit failure occurs only when both
operands are multi-vector stacks with different, non-broadcastable row
counts. -/
theorem c5_interaction_broadcasts {α : Type} [Monoid α] [Zero α]
    [LinearOrder α] (O : ScalarOps α) (d : DataFrame α) (f a b : List Char)
    (m : List (List α)) (v : List α)
    (h2 : ':' ∈ f) (hsp : (splitOnChar ':' f).map strip = [a, b])
    (ha : parse_op O d a = .ok (.mat m)) (hb : parse_op O d b = .ok (.vec v))
    (hlen : ∀ r ∈ m, r.length = v.length) :
    parse_feature_term O d f =
      .ok [.mat (m.map (fun r => List.zipWith (fun x y => x * y) r v))] :=
  parse_feature_term_interaction O d f a b (.mat m) (.vec v)
    (.mat (m.map (fun r => List.zipWith (fun x y => x * y) r v)))
    h2 hsp ha hb (npMul_mat_vec m v hlen)

/-- Witness for the amended C5: `c(g):x` resolves to the two broadcast
products of the dummy rows of g with x. -/
theorem c5_interaction_broadcasts_witness :
    parse_feature_term intOps dfC5 ("c(g):x".toList) =
      .ok [.mat [[3, 0], [0, 4]]] := by
  exact (c5_interaction_broadcasts intOps dfC5 ("c(g):x".toList)
    ("c(g)".toList) ['x'] [[1, 0], [0, 1]] [3, 4]
    (by decide) (by decide) (by decide) (by decide) (by decide)).trans
    (by decide)

/-- C7: for a dataset column of non-negative reals, the term `I(X^(1/2))`
resolves to the same vector as `sqrt(X)`: the parenthesised exponent spec
`1/2` is summed as an exact rational to 1/2, used as the real exponent 0.5,
and elementwise `x ^ (1/2) = √x`. -/
theorem c7_half_power_is_sqrt (d : DataFrame ℝ) (name : List Char)
    (col : List ℝ)
    (hn1 : name ≠ []) (hn2 : ∀ c ∈ name, isWordChar c = true)
    (hl1 : lookupCol d (powerTerm name ['(', '1', '/', '2', ')']) = none)
    (hl2 : lookupCol d (transformTerm ['s', 'q', 'r', 't'] name) = none)
    (hcol : lookupCol d name = some col)
    (hpos : ∀ v ∈ col, 0 ≤ v) :
    parse_op realOps d (powerTerm name ['(', '1', '/', '2', ')']) =
      .ok (.vec (col.map Real.sqrt)) ∧
    parse_op realOps d (transformTerm ['s', 'q', 'r', 't'] name) =
      .ok (.vec (col.map Real.sqrt)) := by
  have hrw : (fun x : ℝ => realOps.pow x ((1 : ℚ) / 2)) = Real.sqrt := by
    funext x
    show x ^ ((((1 : ℚ) / 2 : ℚ)) : ℝ) = Real.sqrt x
    rw [Real.sqrt_eq_rpow]
    norm_num
  constructor
  · -- the power term
    have hmd : matchDummy (powerTerm name ['(', '1', '/', '2', ')']) = false :=
      matchDummy_head 'I' _ (by decide)
    have hto : transformOpOf (powerTerm name ['(', '1', '/', '2', ')']) =
        none :=
      transformOpOf_head 'I' _ (by decide) (by decide) (by decide) (by decide)
        (by decide)
    have hp : matchPower (powerTerm name ['(', '1', '/', '2', ')']) = true :=
      matchPower_sandwich (name ++ '^' :: ['(', '1', '/', '2', ')'])
    have hpi : powerInner (powerTerm name ['(', '1', '/', '2', ')']) =
        name ++ '^' :: ['(', '1', '/', '2', ')'] :=
      powerInner_sandwich (name ++ '^' :: ['(', '1', '/', '2', ')'])
    rw [parse_op_power_branch realOps d _ hl1 hmd hto hp, hpi]
    have hsp : (splitOnChar '^'
        (name ++ '^' :: ['(', '1', '/', '2', ')'])).map strip =
        [name, ['(', '1', '/', '2', ')']] := by
      rw [splitOnChar_sandwich '^' name ['(', '1', '/', '2', ')']
          (wordChars_not_mem hn2 (by decide)),
        splitOnChar_not_mem '^' ['(', '1', '/', '2', ')'] (by decide)]
      simp [strip_wordChars hn2]
      decide
    have hfr : parseFraction ['1', '/', '2'] = some ((1 : ℚ) / 2) := by
      show parseUFrac ['1', '/', '2'] = some ((1 : ℚ) / 2)
      rw [parseUFrac,
        show splitOnChar '/' ['1', '/', '2'] = [['1'], ['2']] from by decide]
      show (match parseNatDigits ['1'], parseNatDigits ['2'] with
            | some n, some dd => if dd = 0 then none
                                 else some ((n : ℚ) / (dd : ℚ))
            | _, _ => none) = some ((1 : ℚ) / 2)
      rw [show parseNatDigits ['1'] = some 1 from by decide,
        show parseNatDigits ['2'] = some 2 from by decide]
      norm_num
    have hes : expSpecResolve ['(', '1', '/', '2', ')'] =
        .ok (.inl ((1 : ℚ) / 2)) := by
      rw [expSpecResolve, if_pos (by decide :
          ('(' ∈ ['(', '1', '/', '2', ')']) ∧ (')' ∈ ['(', '1', '/', '2', ')'])),
        show strip (innerParen ['(', '1', '/', '2', ')']) = ['1', '/', '2']
          from by decide,
        if_pos (by decide : '/' ∈ ['1', '/', '2']),
        show wsSplit ['1', '/', '2'] = [['1', '/', '2']] from by decide,
        List.map_cons, List.map_nil, hfr]
      show Except.ok (Sum.inl (List.sum [(1 : ℚ) / 2])) =
        Except.ok (Sum.inl ((1 : ℚ) / 2))
      norm_num
    simp only [hsp, hes, hcol, hrw]
  · -- the sqrt transform term
    have hto : transformOpOf (transformTerm ['s', 'q', 'r', 't'] name) =
        some ['s', 'q', 'r', 't'] :=
      transformOpOf_op ['s', 'q', 'r', 't'] name (by decide) hn1 hn2
    have hmd : matchDummy (transformTerm ['s', 'q', 'r', 't'] name) = false :=
      matchDummy_cons2 's' 'q' _ (by decide)
    have hip : innerParen (transformTerm ['s', 'q', 'r', 't'] name) = name :=
      innerParen_sandwich ['s', 'q', 'r', 't'] name [] (by decide) (by decide)
        (wordChars_not_mem hn2 (by decide))
    rw [parse_op_transform_branch realOps d _ ['s', 'q', 'r', 't'] hl2 hmd hto,
      hip, hcol]
    have hg : opFun realOps ['s', 'q', 'r', 't'] = some Real.sqrt := rfl
    rw [hg]

/-- Witness for C7 on the non-negative real column x = [0,1,4]. -/
theorem c7_half_power_is_sqrt_witness :
    (∀ v ∈ ([0, 1, 4] : List ℝ), 0 ≤ v) ∧
    parse_op realOps dfR (powerTerm ['x'] ['(', '1', '/', '2', ')']) =
      .ok (.vec (([0, 1, 4] : List ℝ).map Real.sqrt)) ∧
    parse_op realOps dfR (transformTerm ['s', 'q', 'r', 't'] ['x']) =
      .ok (.vec (([0, 1, 4] : List ℝ).map Real.sqrt)) := by
  have hpos : ∀ v ∈ ([0, 1, 4] : List ℝ), 0 ≤ v := by
    intro v hv
    rcases List.mem_cons.mp hv with rfl | hv1
    · norm_num
    rcases List.mem_cons.mp hv1 with rfl | hv2
    · norm_num
    rcases List.mem_cons.mp hv2 with rfl | hv3
    · norm_num
    · simp at hv3
  have h := c7_half_power_is_sqrt dfR ['x'] [0, 1, 4] (by decide) (by decide)
    (by rfl) (by rfl) (by rfl) hpos
  exact ⟨hpos, h.1, h.2⟩
